import Mathlib

/-!
Verification of the signaling layer of the colour-match repository
(`src/webrtc-connection.js`): the session codec (`encodeSdp` / `decodeSdp`
over JSON + base64), the relay client (`storeSdpOnDweet`,
`retrieveSdpFromDweet`, `storeIceCandidateOnDweet`,
`retrieveIceCandidatesFromDweet`), the connection coordinator
(`addIceCandidate`, `setRemoteDescription`, `sendMessage`,
`waitForIceGathering` / `initAsOfferer`), and `generateSessionId`.

Modelling conventions:
- JS strings are lists of UTF-16 code units (`List Nat`).
- JSON values are `Json` below; numbers are modelled as integers (every
  payload this program serializes is an object of strings and integer
  timestamps).  A lone-surrogate code unit is emitted literally by the
  serializer (real `JSON.stringify` escapes it); no theorem below touches
  that case.
- A JS exception is `Except Unit`; a `try/catch` block is a `match` on it.
- `fetch` results are oracles passed as explicit arguments: each network
  attempt is summarized by whether the promise rejected, the response was
  non-ok, or a parsed JSON body was produced.
-/

set_option maxHeartbeats 1000000
set_option maxRecDepth 4000

/-- JSON values as produced by `JSON.parse` / consumed by `JSON.stringify`.
Strings are lists of UTF-16 code units; numbers are modelled as integers. -/
inductive Json where
  | null
  | bool (b : Bool)
  | num (n : Int)
  | str (s : List Nat)
  | arr (elems : List Json)
  | obj (fields : List (List Nat × Json))
deriving Repr

/-- JS truthiness of a (non-undefined) value: `null`, `false`, `0` and the
empty string are falsy; every object and array is truthy. -/
def Json.truthy : Json → Bool
  | .null => false
  | .bool b => b
  | .num n => n != 0
  | .str s => !s.isEmpty
  | .arr _ => true
  | .obj _ => true

/-- JS property access `v.k`.  Access on `null` throws a TypeError
(`Except.error`); a missing property (and any property of a primitive or
array, none of which carries the keys this program reads) is `undefined`,
modelled as `Option.none`. -/
def Json.getProp : Json → List Nat → Except Unit (Option Json)
  | .null, _ => .error ()
  | .obj fields, k => .ok (fields.lookup k)
  | _, _ => .ok none

/-- JS indexing `v[0]` as used on the relay envelope: first array element,
first character of a string, or the property named "0" of an object;
`undefined` otherwise. -/
def Json.index0 : Json → Option Json
  | .arr (x :: _) => some x
  | .str (u :: _) => some (.str [u])
  | .obj fields => fields.lookup [48]
  | _ => none

/-- Truthiness of a possibly-`undefined` JS value. -/
def jsTruthyOpt : Option Json → Bool
  | some v => v.truthy
  | none => false

/-- Code units of the lowercase hex digit for `n < 16`, as emitted by
`JSON.stringify` in a `\u00XY` escape. -/
def hexDigitChar (n : Nat) : Nat :=
  if n < 10 then 48 + n else 87 + n

/-- String escaping performed by `JSON.stringify` on one code unit:
quote and backslash get two-character escapes, the five named control
characters get their short escapes, every other control character below
0x20 becomes `\u00XY`, and everything else is emitted literally. -/
def escapeUnit (u : Nat) : List Nat :=
  if u = 34 then [92, 34]
  else if u = 92 then [92, 92]
  else if u = 8 then [92, 98]
  else if u = 9 then [92, 116]
  else if u = 10 then [92, 110]
  else if u = 12 then [92, 102]
  else if u = 13 then [92, 114]
  else if u < 32 then [92, 117, 48, 48, hexDigitChar (u / 16), hexDigitChar (u % 16)]
  else [u]

/-- The quoted, escaped form of a JSON string body. -/
def quoteStr (s : List Nat) : List Nat :=
  34 :: (s.map escapeUnit).flatten ++ [34]

/-- Fuel-indexed helper for `natDigits`; the fuel is an upper bound on the
number, so the recursion is structural and kernel-reducible. -/
def natDigitsAux : Nat → Nat → List Nat
  | 0, _ => []
  | fuel + 1, n => if n < 10 then [48 + n] else natDigitsAux fuel (n / 10) ++ [48 + n % 10]

/-- Decimal digit code units of a natural number, most significant first. -/
def natDigits (n : Nat) : List Nat :=
  natDigitsAux (n + 1) n

/-- Decimal rendering of an integer, as `JSON.stringify` prints an
integral number. -/
def intUnits (n : Int) : List Nat :=
  if n < 0 then 45 :: natDigits n.natAbs else natDigits n.toNat

mutual

/-- Embedding of `JSON.stringify` on the `Json` model: compact output
(no whitespace), integers in decimal, strings escaped as in `escapeUnit`. -/
def stringify : Json → List Nat
  | .null => [110, 117, 108, 108]
  | .bool true => [116, 114, 117, 101]
  | .bool false => [102, 97, 108, 115, 101]
  | .num n => intUnits n
  | .str s => quoteStr s
  | .arr xs => 91 :: stringifyElems xs ++ [93]
  | .obj kvs => 123 :: stringifyFields kvs ++ [125]

/-- Comma-separated serialization of array elements. -/
def stringifyElems : List Json → List Nat
  | [] => []
  | [x] => stringify x
  | x :: y :: rest => stringify x ++ 44 :: stringifyElems (y :: rest)

/-- Comma-separated serialization of object members (`"key":value`). -/
def stringifyFields : List (List Nat × Json) → List Nat
  | [] => []
  | [kv] => quoteStr kv.1 ++ 58 :: stringify kv.2
  | kv :: kv2 :: rest => quoteStr kv.1 ++ 58 :: stringify kv.2 ++ 44 :: stringifyFields (kv2 :: rest)

end

/-- JSON insignificant whitespace: space, tab, line feed, carriage return. -/
def isWsUnit (u : Nat) : Bool :=
  u = 32 || u = 9 || u = 10 || u = 13

/-- Drop leading JSON whitespace. -/
def skipWs : List Nat → List Nat
  | [] => []
  | u :: rest => if isWsUnit u then skipWs rest else u :: rest

/-- Decimal digit test on a code unit. -/
def isDigitUnit (u : Nat) : Bool :=
  48 ≤ u && u ≤ 57

/-- Value of a hex digit code unit, either case, as accepted in a JSON
string escape. -/
def hexVal (u : Nat) : Option Nat :=
  if 48 ≤ u && u ≤ 57 then some (u - 48)
  else if 97 ≤ u && u ≤ 102 then some (u - 87)
  else if 65 ≤ u && u ≤ 70 then some (u - 55)
  else none

/-- Parse the body of a JSON string after the opening quote: returns the
decoded code units and the remaining input after the closing quote.
Handles the nine JSON escapes including `\uXXXX`; rejects raw control
characters, as `JSON.parse` does. -/
def parseStringBody : List Nat → Option (List Nat × List Nat)
  | [] => none
  | u :: rest =>
    if u = 34 then some ([], rest)
    else if u = 92 then
      match rest with
      | [] => none
      | e :: r =>
        if e = 34 then (parseStringBody r).map (fun p => (34 :: p.1, p.2))
        else if e = 92 then (parseStringBody r).map (fun p => (92 :: p.1, p.2))
        else if e = 47 then (parseStringBody r).map (fun p => (47 :: p.1, p.2))
        else if e = 98 then (parseStringBody r).map (fun p => (8 :: p.1, p.2))
        else if e = 102 then (parseStringBody r).map (fun p => (12 :: p.1, p.2))
        else if e = 110 then (parseStringBody r).map (fun p => (10 :: p.1, p.2))
        else if e = 114 then (parseStringBody r).map (fun p => (13 :: p.1, p.2))
        else if e = 116 then (parseStringBody r).map (fun p => (9 :: p.1, p.2))
        else if e = 117 then
          match r with
          | h1 :: h2 :: h3 :: h4 :: r2 =>
            match hexVal h1, hexVal h2, hexVal h3, hexVal h4 with
            | some a, some b, some c, some d =>
              (parseStringBody r2).map (fun p => ((a * 4096 + b * 256 + c * 16 + d) :: p.1, p.2))
            | _, _, _, _ => none
          | _ => none
        else none
    else if u < 32 then none
    else (parseStringBody rest).map (fun p => (u :: p.1, p.2))

/-- Longest prefix of decimal digits, with the remaining input. -/
def spanDigits : List Nat → (List Nat × List Nat)
  | [] => ([], [])
  | u :: rest =>
    if isDigitUnit u then
      ((u :: (spanDigits rest).1), (spanDigits rest).2)
    else ([], u :: rest)

/-- Numeric value of a list of decimal digit code units. -/
def digitsVal (ds : List Nat) : Nat :=
  ds.foldl (fun a d => a * 10 + (d - 48)) 0

/-- Whether the input starts with a decimal digit. -/
def digitStarts : List Nat → Bool
  | [] => false
  | u :: _ => isDigitUnit u

/-- Whether the input starts a fraction or exponent part (which the
integer-valued number model cannot represent). -/
def fracOrExpStarts : List Nat → Bool
  | [] => false
  | u :: _ => u = 46 || u = 101 || u = 69

/-- Parse an unsigned JSON integer: either a lone `0` or a nonzero leading
digit followed by more digits; rejects a leading zero before further
digits (as JSON does) and a fraction/exponent (integer number model). -/
def parseNatNumber (s : List Nat) : Option (Nat × List Nat) :=
  match s with
  | [] => none
  | u :: rest =>
    if u = 48 then
      if fracOrExpStarts rest then none
      else if digitStarts rest then none
      else some (0, rest)
    else if isDigitUnit u then
      if fracOrExpStarts (spanDigits rest).2 then none
      else some (digitsVal (u :: (spanDigits rest).1), (spanDigits rest).2)
    else none

/-- Parse a JSON number with optional leading minus sign. -/
def parseNumberFrom (s : List Nat) : Option (Json × List Nat) :=
  match s with
  | [] => none
  | u :: rest =>
    if u = 45 then (parseNatNumber rest).map (fun p => (Json.num (-(p.1 : Int)), p.2))
    else (parseNatNumber (u :: rest)).map (fun p => (Json.num (p.1 : Int), p.2))

mutual

/-- Fuel-indexed recursive-descent parser for one JSON value, the
embedding of `JSON.parse`; the fuel only bounds nesting bookkeeping
(top level supplies input length + 1, always sufficient).  Returns the
value and the unconsumed remainder. -/
def parseValue : Nat → List Nat → Option (Json × List Nat)
  | 0, _ => none
  | fuel + 1, s =>
    match s with
    | [] => none
    | u :: rest =>
      if u = 110 then
        match rest with
        | 117 :: 108 :: 108 :: r => some (.null, r)
        | _ => none
      else if u = 116 then
        match rest with
        | 114 :: 117 :: 101 :: r => some (.bool true, r)
        | _ => none
      else if u = 102 then
        match rest with
        | 97 :: 108 :: 115 :: 101 :: r => some (.bool false, r)
        | _ => none
      else if u = 34 then
        (parseStringBody rest).map (fun p => (.str p.1, p.2))
      else if u = 91 then
        match skipWs rest with
        | [] => none
        | v :: r =>
          if v = 93 then some (.arr [], r)
          else (parseElems fuel (v :: r)).map (fun p => (.arr p.1, p.2))
      else if u = 123 then
        match skipWs rest with
        | [] => none
        | v :: r =>
          if v = 125 then some (.obj [], r)
          else (parseFields fuel (v :: r)).map (fun p => (.obj p.1, p.2))
      else if u = 45 || isDigitUnit u then
        parseNumberFrom (u :: rest)
      else none

/-- Parse one or more comma-separated array elements, consuming the
closing bracket. -/
def parseElems : Nat → List Nat → Option (List Json × List Nat)
  | 0, _ => none
  | fuel + 1, s =>
    match parseValue fuel (skipWs s) with
    | none => none
    | some (v, r) =>
      match skipWs r with
      | 44 :: r2 => (parseElems fuel r2).map (fun p => (v :: p.1, p.2))
      | 93 :: r2 => some ([v], r2)
      | _ => none

/-- Parse one or more comma-separated object members, consuming the
closing brace. -/
def parseFields : Nat → List Nat → Option (List (List Nat × Json) × List Nat)
  | 0, _ => none
  | fuel + 1, s =>
    match skipWs s with
    | 34 :: r =>
      match parseStringBody r with
      | none => none
      | some (k, r1) =>
        match skipWs r1 with
        | 58 :: r2 =>
          match parseValue fuel (skipWs r2) with
          | none => none
          | some (v, r3) =>
            match skipWs r3 with
            | 44 :: r4 => (parseFields fuel r4).map (fun p => ((k, v) :: p.1, p.2))
            | 125 :: r4 => some ([(k, v)], r4)
            | _ => none
        | _ => none
    | _ => none

end

/-- Embedding of `JSON.parse`: one value, surrounded only by whitespace;
`none` models the thrown SyntaxError. -/
def parseJson (s : List Nat) : Option Json :=
  match parseValue (s.length + 1) (skipWs s) with
  | some (v, rest) => if (skipWs rest).isEmpty then some v else none
  | none => none

/-- Code unit of the base64 alphabet character for a 6-bit value. -/
def b64CharOf (n : Nat) : Nat :=
  if n < 26 then 65 + n
  else if n < 52 then 97 + (n - 26)
  else if n < 62 then 48 + (n - 52)
  else if n = 62 then 43
  else 47

/-- Six-bit value of a base64 alphabet code unit. -/
def b64ValOf (u : Nat) : Option Nat :=
  if 65 ≤ u && u ≤ 90 then some (u - 65)
  else if 97 ≤ u && u ≤ 122 then some (u - 97 + 26)
  else if 48 ≤ u && u ≤ 57 then some (u - 48 + 52)
  else if u = 43 then some 62
  else if u = 47 then some 63
  else none

/-- Base64 encoding of a byte list in three-byte groups, with `=` padding,
as `btoa` emits. -/
def btoaChunks : List Nat → List Nat
  | [] => []
  | [a] => [b64CharOf (a / 4), b64CharOf (a % 4 * 16), 61, 61]
  | [a, b] => [b64CharOf (a / 4), b64CharOf (a % 4 * 16 + b / 16), b64CharOf (b % 16 * 4), 61]
  | a :: b :: c :: rest =>
    b64CharOf (a / 4) :: b64CharOf (a % 4 * 16 + b / 16) ::
      b64CharOf (b % 16 * 4 + c / 64) :: b64CharOf (c % 64) :: btoaChunks rest

/-- Embedding of `btoa`: fails (throws InvalidCharacterError, modelled as
`none`) when any code unit of the argument is outside the Latin-1 range. -/
def btoa (s : List Nat) : Option (List Nat) :=
  if s.all (fun u => u < 256) then some (btoaChunks s) else none

/-- ASCII whitespace removed by forgiving-base64 decoding. -/
def isB64Ws (u : Nat) : Bool :=
  u = 9 || u = 10 || u = 12 || u = 13 || u = 32

/-- Remove up to two trailing `=` code units. -/
def stripPadding (s : List Nat) : List Nat :=
  match s.reverse with
  | [] => s
  | [a] => if a = 61 then [] else s
  | a :: b :: t =>
    if a = 61 then (if b = 61 then t.reverse else (b :: t).reverse) else s

/-- Map base64 code units to their 6-bit values; fails on any unit outside
the alphabet (this is how a leftover `=` is rejected). -/
def mapB64Vals : List Nat → Option (List Nat)
  | [] => some []
  | u :: rest =>
    match b64ValOf u with
    | some v => (mapB64Vals rest).map (fun vs => v :: vs)
    | none => none

/-- Reassemble bytes from 6-bit values in groups of four, with forgiving
handling of a final group of two or three values. -/
def decodeB64Groups : List Nat → Option (List Nat)
  | [] => some []
  | [_] => none
  | [v1, v2] => some [v1 * 4 + v2 / 16]
  | [v1, v2, v3] => some [v1 * 4 + v2 / 16, v2 % 16 * 16 + v3 / 4]
  | v1 :: v2 :: v3 :: v4 :: rest =>
    (decodeB64Groups rest).map
      (fun bs => (v1 * 4 + v2 / 16) :: (v2 % 16 * 16 + v3 / 4) :: (v3 % 4 * 64 + v4) :: bs)

/-- Embedding of `atob` (WHATWG forgiving-base64 decode): strip ASCII
whitespace, strip up to two trailing `=` when the length is a multiple of
four, reject a post-strip length of 1 mod 4 and any unit outside the
alphabet, then reassemble the bytes. -/
def atob (s : List Nat) : Option (List Nat) :=
  match (if (s.filter (fun u => !isB64Ws u)).length % 4 = 0
         then stripPadding (s.filter (fun u => !isB64Ws u))
         else s.filter (fun u => !isB64Ws u)) with
  | t =>
    if t.length % 4 = 1 then none
    else
      match mapB64Vals t with
      | some vs => decodeB64Groups vs
      | none => none

/-- Embedding of `encodeSdp` (line 796): `btoa(JSON.stringify(sdp))`.
The `Except` carries the InvalidCharacterError that `btoa` throws when
the serialization leaves Latin-1; `encodeSdp` has no handler for it. -/
def encodeSdpE (sdp : Json) : Except Unit (List Nat) :=
  match btoa (stringify sdp) with
  | some e => .ok e
  | none => .error ()

/-- The URL-unsafe-to-safe character translation done by `decodeSdp`
(line 806): `-` back to `+` and `_` back to `/`. -/
def urlUnsafeRestore (e : List Nat) : List Nat :=
  e.map (fun u => if u = 45 then 43 else if u = 95 then 47 else u)

/-- The re-padding done by `decodeSdp` (line 808): append `=` up to the
next multiple of four. -/
def padTo4 (b : List Nat) : List Nat :=
  b ++ List.replicate ((4 - b.length % 4) % 4) 61

/-- The body of `decodeSdp` (lines 806-809) before the catch-all handler:
restore URL-safe characters, re-pad, `atob`, `JSON.parse`; an error is
any exception thrown inside the `try` block. -/
def decodeSdpE (encoded : List Nat) : Except Unit Json :=
  match atob (padTo4 (urlUnsafeRestore encoded)) with
  | none => .error ()
  | some bytes =>
    match parseJson bytes with
    | none => .error ()
    | some v => .ok v

/-- Embedding of `decodeSdp` (lines 803-814): the `try/catch` that turns
every exception of the body into a `null` result. -/
def decodeSdp (encoded : List Nat) : Option Json :=
  match decodeSdpE encoded with
  | .ok v => some v
  | .error _ => none

/-- A caller-side application of `decodeSdp` to an arbitrary JS value, as
in `retrieveSdpFromDweet`: on a non-string the `encoded.replace` call
throws inside the `try` block and `decodeSdp` returns `null`. -/
def decodeSdpJs (v : Json) : Option Json :=
  match v with
  | .str s => decodeSdp s
  | _ => none

/-- The URL-safe substitution an external holder may apply to an encoded
payload (the direction `+` to `-`, `/` to `_` named by the round-trip
contract). -/
def urlUnsafeSubst (e : List Nat) : List Nat :=
  e.map (fun u => if u = 43 then 45 else if u = 47 then 95 else u)

/-- Code units of the property name "with" of the relay envelope. -/
def keyWith : List Nat := [119, 105, 116, 104]

/-- Code units of the property name "content". -/
def keyContent : List Nat := [99, 111, 110, 116, 101, 110, 116]

/-- Code units of the property name "sdp". -/
def keySdp : List Nat := [115, 100, 112]

/-- Code units of the property name "offer". -/
def keyOffer : List Nat := [111, 102, 102, 101, 114]

/-- Code units of the property name "candidate". -/
def keyCandidate : List Nat := [99, 97, 110, 100, 105, 100, 97, 116, 101]

/-- Code units of the property name "sdpMLineIndex". -/
def keySdpMLineIndex : List Nat := [115, 100, 112, 77, 76, 105, 110, 101, 73, 110, 100, 101, 120]

/-- Code units of the property name "sdpMid". -/
def keySdpMid : List Nat := [115, 100, 112, 77, 105, 100]

/-- Code units of the property name "timestamp". -/
def keyTimestamp : List Nat := [116, 105, 109, 101, 115, 116, 97, 109, 112]

/-- Code units of the property name "created". -/
def keyCreated : List Nat := [99, 114, 101, 97, 116, 101, 100]

/-- Net effect of one relay GET attempt (the direct fetch with its
in-code proxy fallback): the promise chain rejected, the completed
response was non-ok, the body failed to parse as JSON, or a parsed JSON
body was produced. -/
inductive FetchOutcome where
  | netFail
  | httpFail
  | jsonFail
  | ok (data : Json)

/-- Line 996 of `retrieveSdpFromDweet` on the selected `content` value:
`content && (content.sdp || content.offer)`, with JS `||` returning its
second operand unevaluated-truthiness and `&&` returning a falsy left
operand as is; `none` models an `undefined` result. -/
def extractSdpTail (content : Json) : Except Unit (Option Json) :=
  if content.truthy then
    match content.getProp keySdp with
    | .error e => .error e
    | .ok (some v) =>
      if v.truthy then .ok (some v)
      else content.getProp keyOffer
    | .ok none => content.getProp keyOffer
  else
    .ok (some content)

/-- Line 995 of `retrieveSdpFromDweet` on the selected entry `dweet`:
`(dweet && dweet.content) ? dweet.content : dweet`, then the line-996
tail. -/
def extractSdpOfDweet (dweet : Json) : Except Unit (Option Json) :=
  if dweet.truthy then
    match dweet.getProp keyContent with
    | .error e => .error e
    | .ok c =>
      extractSdpTail (match c with
        | some cv => if cv.truthy then cv else dweet
        | none => dweet)
  else
    extractSdpTail dweet

/-- Lines 994-997 of `retrieveSdpFromDweet`: pick the first envelope
entry when `data.with` is truthy with a truthy first element, else the
body itself, then extract `content.sdp || content.offer` from it.  The
error case is the TypeError thrown by `data.with` when the body is JSON
`null`. -/
def extractSdpEncoded (data : Json) : Except Unit (Option Json) :=
  match data.getProp keyWith with
  | .error e => .error e
  | .ok w =>
    extractSdpOfDweet
      (match w with
        | some wv =>
          if wv.truthy then
            match wv.index0 with
            | some e => if e.truthy then e else data
            | none => data
          else data
        | none => data)

/-- Whether an attempt of the `retrieveSdpFromDweet` loop takes the
sleep-then-continue (or final give-up) path: a rejected fetch chain, a
non-ok response, an unparsable body, or a body whose field extraction
throws. -/
def hardFail (o : FetchOutcome) : Bool :=
  match o with
  | .netFail => true
  | .httpFail => true
  | .jsonFail => true
  | .ok data =>
    match extractSdpEncoded data with
    | .error _ => true
    | .ok _ => false

/-- Observable outcome of the `retrieveSdpFromDweet` retry loop: final
return value, number of loop iterations entered, and number of 1500 ms
delays slept. -/
structure RetrieveTrace where
  result : Option Json
  attemptsMade : Nat
  delaysSlept : Nat

/-- The `for` loop of `retrieveSdpFromDweet` (lines 977-1010), one list
element per available attempt.  A failing attempt sleeps and continues
unless it was the last; an ok response whose extracted sdp field is
truthy returns `decodeSdp` of it at once; an ok response without a
truthy sdp field re-enters the loop with no sleep. -/
def retrieveGo : List FetchOutcome → Nat → Nat → RetrieveTrace
  | [], att, sl => { result := none, attemptsMade := att, delaysSlept := sl }
  | o :: rest, att, sl =>
    match o with
    | .netFail =>
      if rest.isEmpty then { result := none, attemptsMade := att + 1, delaysSlept := sl }
      else retrieveGo rest (att + 1) (sl + 1)
    | .httpFail =>
      if rest.isEmpty then { result := none, attemptsMade := att + 1, delaysSlept := sl }
      else retrieveGo rest (att + 1) (sl + 1)
    | .jsonFail =>
      if rest.isEmpty then { result := none, attemptsMade := att + 1, delaysSlept := sl }
      else retrieveGo rest (att + 1) (sl + 1)
    | .ok data =>
      match extractSdpEncoded data with
      | .error _ =>
        if rest.isEmpty then { result := none, attemptsMade := att + 1, delaysSlept := sl }
        else retrieveGo rest (att + 1) (sl + 1)
      | .ok (some v) =>
        if v.truthy then { result := decodeSdpJs v, attemptsMade := att + 1, delaysSlept := sl }
        else retrieveGo rest (att + 1) sl
      | .ok none => retrieveGo rest (att + 1) sl

/-- Embedding of `retrieveSdpFromDweet` (lines 973-1011): run the retry
loop over the per-attempt outcomes (list length = `maxRetries`,
default 5). -/
def retrieveSdpFromDweet (outcomes : List FetchOutcome) : RetrieveTrace :=
  retrieveGo outcomes 0 0

/-- The value `retrieveIceCandidatesFromDweet` returns on success: the
stored candidate and `content.timestamp || dweet.created` (which is
`undefined`, here `none`, when both are missing). -/
structure IceFetchResult where
  candidate : Json
  timestamp : Option Json

/-- Lines 1031-1036 on a truthy `content` value `cv`: require a truthy
`cv.candidate` and return it with `cv.timestamp || dweet.created`. -/
def iceGetContent (dweet cv : Json) : Except Unit (Option IceFetchResult) :=
  match cv.getProp keyCandidate with
  | .error e => .error e
  | .ok (some cdv) =>
    if cdv.truthy then
      match cv.getProp keyTimestamp with
      | .error e => .error e
      | .ok t1 =>
        match (match t1 with
          | some tv => if tv.truthy then Except.ok (some tv) else dweet.getProp keyCreated
          | none => dweet.getProp keyCreated) with
        | .error e => .error e
        | .ok ts => .ok (some { candidate := cdv, timestamp := ts })
    else .ok none
  | .ok none => .ok none

/-- Lines 1030-1037 on the selected envelope entry `dweet`: read
`dweet.content`, require it truthy with a truthy `candidate`, and build
the result with `content.timestamp || dweet.created`. -/
def iceGetDweet (dweet : Json) : Except Unit (Option IceFetchResult) :=
  match dweet.getProp keyContent with
  | .error e => .error e
  | .ok (some cv) =>
    if cv.truthy then iceGetContent dweet cv else .ok none
  | .ok none => .ok none

/-- Lines 1029-1038 of `retrieveIceCandidatesFromDweet`: only the
envelope shape is inspected — `data.with` must be truthy with a positive
`length` — and the candidate is read from `with[0].content.candidate`.
A body of JSON `null` makes `data.with` throw (the error case). -/
def iceGet (data : Json) : Except Unit (Option IceFetchResult) :=
  match data.getProp keyWith with
  | .error e => .error e
  | .ok (some wv) =>
    if wv.truthy then
      if (match wv with
          | .arr xs => decide (0 < xs.length)
          | .str s => decide (0 < s.length)
          | _ => false) then
        match wv.index0 with
        | some dweet => iceGetDweet dweet
        | none => .ok none
      else .ok none
    else .ok none
  | .ok none => .ok none

/-- Embedding of `retrieveIceCandidatesFromDweet` (lines 1016-1044): a
single fetch (with proxy fallback summarized in the outcome); every
failure, thrown access included, becomes `null`. -/
def retrieveIceCandidatesFromDweet (o : FetchOutcome) : Option IceFetchResult :=
  match o with
  | .netFail => none
  | .httpFail => none
  | .jsonFail => none
  | .ok data =>
    match iceGet data with
    | .error _ => none
    | .ok r => r

/-- Net result of one POST attempt: the fetch promise rejected at the
network level, or a response with the given ok flag completed. -/
inductive PostAttempt where
  | rejected
  | resp (okFlag : Bool)

/-- Observable outcome of a publish call: returned boolean, number of
POSTs to the relay URL, number of POSTs through the CORS proxy. -/
structure PublishTrace where
  result : Bool
  relayPosts : Nat
  proxyPosts : Nat

/-- Embedding of `storeSdpOnDweet` (lines 846-869).  The request body is
built with `encodeSdp` before the `try` block, so an encoding exception
escapes the function (the `Except.error` case) with no POST made.
Otherwise: POST direct; only if that fetch rejects, POST once through
`dweetProxyUrl`; a completed non-ok response throws into the catch and
yields `false`; the result is `true` exactly for a completed ok
response. -/
def storeSdpOnDweet (sdp : Json) (direct proxied : PostAttempt) : Except Unit PublishTrace :=
  match encodeSdpE sdp with
  | .error e => .error e
  | .ok _ =>
    .ok (match direct with
      | .resp okFlag => { result := okFlag, relayPosts := 1, proxyPosts := 0 }
      | .rejected =>
        match proxied with
        | .resp okFlag => { result := okFlag, relayPosts := 1, proxyPosts := 1 }
        | .rejected => { result := false, relayPosts := 1, proxyPosts := 1 })

/-- Lines 880-884 of `storeIceCandidateOnDweet`: normalize the input to a
plain record — `candidate.candidate || candidate`, `sdpMLineIndex`
defaulted to `null` only when `undefined` (`!== undefined` keeps a
present `0`), `sdpMid || null`.  Property access on a `null` input
throws. -/
def mkCandidateObj (candidate : Json) : Except Unit Json :=
  match candidate.getProp keyCandidate with
  | .error e => .error e
  | .ok c =>
    match candidate.getProp keySdpMLineIndex with
    | .error e => .error e
    | .ok idx =>
      match candidate.getProp keySdpMid with
      | .error e => .error e
      | .ok mid =>
        .ok (Json.obj
          [(keyCandidate,
              match c with
              | some v => if v.truthy then v else candidate
              | none => candidate),
            (keySdpMLineIndex,
              match idx with
              | some v => v
              | none => Json.null),
            (keySdpMid,
              match mid with
              | some v => if v.truthy then v else Json.null
              | none => Json.null)])

/-- Observable outcome of `storeIceCandidateOnDweet`: returned boolean,
POST counts, and the body sent to the relay (`none` when no POST was
made). -/
structure IcePublishTrace where
  result : Bool
  relayPosts : Nat
  proxyPosts : Nat
  postedBody : Option Json

/-- Embedding of `storeIceCandidateOnDweet` (lines 874-902).  Everything,
body construction included, sits inside the `try`, so a throwing input
yields `false` with no POST; the POST/proxy discipline matches
`storeSdpOnDweet`, and the result is `response.ok` of the completed
attempt. -/
def storeIceCandidateOnDweet (candidate : Json) (ts : Int) (direct proxied : PostAttempt) :
    IcePublishTrace :=
  match mkCandidateObj candidate with
  | .error _ => { result := false, relayPosts := 0, proxyPosts := 0, postedBody := none }
  | .ok cobj =>
    match direct with
    | .resp okFlag =>
      { result := okFlag, relayPosts := 1, proxyPosts := 0,
        postedBody := some (Json.obj [(keyCandidate, cobj), (keyTimestamp, Json.num ts)]) }
    | .rejected =>
      match proxied with
      | .resp okFlag =>
        { result := okFlag, relayPosts := 1, proxyPosts := 1,
          postedBody := some (Json.obj [(keyCandidate, cobj), (keyTimestamp, Json.num ts)]) }
      | .rejected =>
        { result := false, relayPosts := 1, proxyPosts := 1,
          postedBody := some (Json.obj [(keyCandidate, cobj), (keyTimestamp, Json.num ts)]) }

/-- The engine capability (`RTCPeerConnection`) as the coordinator
observes it: the committed remote description and a spy recording every
candidate forwarded through `pc.addIceCandidate`. -/
structure EnginePeer where
  remoteDescription : Option Json
  engineCandidates : List Json

/-- The data channel as the coordinator observes it: its `readyState`
string and a spy recording every `send`. -/
structure DataChannelRec where
  readyState : List Nat
  sent : List (List Nat)

/-- Coordinator state of the `WebRTCConnection` class: the engine
instance and data channel, each possibly absent. -/
structure WebRTCConnection where
  pc : Option EnginePeer
  dataChannel : Option DataChannelRec

/-- Embedding of `WebRTCConnection.addIceCandidate` (lines 652-656):
forward to the engine only when `this.pc` exists and
`this.pc.remoteDescription` is truthy (non-null). -/
def WebRTCConnection.addIceCandidate (st : WebRTCConnection) (candidate : Json) :
    WebRTCConnection :=
  match st.pc with
  | some p =>
    if p.remoteDescription.isSome then
      { st with pc := some { p with engineCandidates := p.engineCandidates ++ [candidate] } }
    else st
  | none => st

/-- Embedding of `WebRTCConnection.setRemoteDescription` (lines 661-665):
commit the description to the engine when an engine instance exists;
otherwise a no-op. -/
def WebRTCConnection.setRemoteDescription (st : WebRTCConnection) (sdp : Json) :
    WebRTCConnection :=
  match st.pc with
  | some p => { st with pc := some { p with remoteDescription := some sdp } }
  | none => st

/-- The candidates the engine spy has received. -/
def WebRTCConnection.engineCands (st : WebRTCConnection) : List Json :=
  match st.pc with
  | some p => p.engineCandidates
  | none => []

/-- Code units of the channel state string "open". -/
def readyStateOpen : List Nat := [111, 112, 101, 110]

/-- Embedding of `WebRTCConnection.sendMessage` (lines 704-712): write
`JSON.stringify(data)` to the channel and return `true` only when the
channel exists and its `readyState` is exactly "open"; otherwise return
`false` with no write. -/
def WebRTCConnection.sendMessage (st : WebRTCConnection) (data : Json) :
    Bool × WebRTCConnection :=
  match st.dataChannel with
  | some ch =>
    if ch.readyState = readyStateOpen then
      (true, { st with dataChannel := some { ch with sent := ch.sent ++ [stringify data] } })
    else (false, st)
  | none => (false, st)

/-- The writes the data channel spy has received. -/
def WebRTCConnection.sentWrites (st : WebRTCConnection) : List (List Nat) :=
  match st.dataChannel with
  | some ch => ch.sent
  | none => []

/-- The fixed gathering timeout of `waitForIceGathering` (line 762). -/
def iceGatheringTimeoutMs : Nat := 5000

/-- Denotation of `WebRTCConnection.waitForIceGathering` (lines 738-764)
as the time at which its promise resolves.  The promise has exactly
three resolvers: the immediate check when gathering is already complete
(time 0), the `onicegatheringstatechange` handler when the engine fires
a change to complete (`completeEventAt`), and the unconditional 5000 ms
timer; the `checkState` poller is defined but never invoked in the
source, so it resolves nothing.  The first resolver to fire wins. -/
def waitForIceGathering (initiallyComplete : Bool) (completeEventAt : Option Nat) : Nat :=
  if initiallyComplete then 0
  else
    match completeEventAt with
    | some t => min t iceGatheringTimeoutMs
    | none => iceGatheringTimeoutMs

/-- Result of `initAsOfferer`: the returned local description and the
time at which the gathering wait resolved. -/
structure OffererInitResult where
  localDescription : Json
  resolvedAtMs : Nat

/-- The tail of `WebRTCConnection.initAsOfferer` (lines 583-589): after
committing the local offer it awaits `waitForIceGathering` and returns
`this.pc.localDescription` as it stands when the wait resolves;
`descAt t` is the engine's local description at time `t` (the engine
keeps amending it while candidates arrive). -/
def initAsOfferer (descAt : Nat → Json) (initiallyComplete : Bool)
    (completeEventAt : Option Nat) : OffererInitResult :=
  { localDescription := descAt (waitForIceGathering initiallyComplete completeEventAt),
    resolvedAtMs := waitForIceGathering initiallyComplete completeEventAt }

/-- Code unit of the lowercase base-36 digit for `d < 36`, as
`Number.prototype.toString(36)` prints one fractional digit. -/
def base36DigitChar (d : Nat) : Nat :=
  if d < 10 then 48 + d else 87 + d

/-- Rendering of `Math.random().toString(36)` given the base-36
fractional digit expansion of the random double: `"0"` for the value 0
(empty expansion), otherwise `"0."` followed by the digits.  JS prints
the shortest expansion that round-trips the double, so the digit list is
finite and can be shorter than six digits. -/
def randomToStringBase36 (fracDigits : List Nat) : List Nat :=
  match fracDigits with
  | [] => [48]
  | d :: ds => 48 :: 46 :: (d :: ds).map base36DigitChar

/-- Embedding of `String.prototype.toUpperCase` on code units. -/
def jsToUpperCase (s : List Nat) : List Nat :=
  s.map (fun u => if 97 ≤ u && u ≤ 122 then u - 32 else u)

/-- Embedding of `generateSessionId` (lines 789-791):
`Math.random().toString(36).substring(2, 8).toUpperCase()`, parameterized
by the random double's base-36 fractional digit expansion. -/
def generateSessionId (fracDigits : List Nat) : List Nat :=
  jsToUpperCase (((randomToStringBase36 fracDigits).drop 2).take 6)

/-- A continuation on which a JSON number token necessarily ends: empty
input or a unit that is neither a digit nor a fraction/exponent starter.
Every continuation produced by the compact serializer (`,` `]` `}` or end
of input) satisfies it. -/
def numberStop : List Nat → Bool
  | [] => true
  | u :: _ => !(isDigitUnit u || u = 46 || u = 101 || u = 69)

/-- The 6-bit values of a base64 encoding, without padding, used to relate
`btoaChunks` to `atob`. -/
def encValues : List Nat → List Nat
  | [] => []
  | [a] => [a / 4, a % 4 * 16]
  | [a, b] => [a / 4, a % 4 * 16 + b / 16, b % 16 * 4]
  | a :: b :: c :: rest =>
    (a / 4) :: (a % 4 * 16 + b / 16) :: (b % 16 * 4 + c / 64) :: (c % 64) :: encValues rest

/-- Number of `=` padding characters `btoa` appends for a byte list. -/
def padCount (s : List Nat) : Nat :=
  (3 - s.length % 3) % 3

/-- C4: a remote ICE candidate submitted to the coordinator reaches the
engine capability exactly when a remote description has already been
committed: before `setRemoteDescription` the call leaves the state (and
hence the engine spy) unchanged; after `setRemoteDescription` on a state
with an engine instance, the candidate is appended to the engine spy. -/
theorem addIceCandidate_requires_remote_description :
    ∀ (st : WebRTCConnection) (c sdp : Json),
      ((match st.pc with
        | some p => p.remoteDescription = none
        | none => True) →
        st.addIceCandidate c = st) ∧
      (∀ p, st.pc = some p →
        ((st.setRemoteDescription sdp).addIceCandidate c).engineCands
          = st.engineCands ++ [c]) := by
  intro st c sdp
  constructor
  · intro h
    cases hpc : st.pc with
    | none => simp [WebRTCConnection.addIceCandidate, hpc]
    | some p =>
      rw [hpc] at h
      simp [WebRTCConnection.addIceCandidate, hpc, h]
  · intro p hp
    simp [WebRTCConnection.setRemoteDescription, WebRTCConnection.addIceCandidate,
      WebRTCConnection.engineCands, hp]

/-- Witness for C4 at a concrete coordinator state: with no remote
description committed the candidate is dropped; after committing one it
reaches the engine spy. -/
theorem addIceCandidate_requires_remote_description_witness :
    (WebRTCConnection.addIceCandidate
        { pc := some { remoteDescription := none, engineCandidates := [] }, dataChannel := none }
        (Json.str [99])
      = { pc := some { remoteDescription := none, engineCandidates := [] }, dataChannel := none }) ∧
    ((WebRTCConnection.addIceCandidate
        (WebRTCConnection.setRemoteDescription
          { pc := some { remoteDescription := none, engineCandidates := [] }, dataChannel := none }
          Json.null)
        (Json.str [99])).engineCands = [Json.str [99]]) := by
  have h := addIceCandidate_requires_remote_description
    { pc := some { remoteDescription := none, engineCandidates := [] }, dataChannel := none }
    (Json.str [99]) Json.null
  exact ⟨h.1 rfl, by simpa using h.2 { remoteDescription := none, engineCandidates := [] } rfl⟩

/-- C5: `sendMessage` returns true exactly when the data channel exists
and is in the open state; a true return performs exactly one write, of
the JSON serialization of the payload; a false return leaves the state
(hence the write log) untouched. -/
theorem sendMessage_write_discipline :
    ∀ (st : WebRTCConnection) (data : Json),
      ((st.sendMessage data).1 = true ↔
        ∃ ch, st.dataChannel = some ch ∧ ch.readyState = readyStateOpen) ∧
      ((st.sendMessage data).1 = true →
        ((st.sendMessage data).2).sentWrites = st.sentWrites ++ [stringify data]) ∧
      ((st.sendMessage data).1 = false → (st.sendMessage data).2 = st) := by
  intro st data
  cases hch : st.dataChannel with
  | none => simp [WebRTCConnection.sendMessage, hch]
  | some ch =>
    by_cases hrs : ch.readyState = readyStateOpen
    · simp [WebRTCConnection.sendMessage, WebRTCConnection.sentWrites, hch, hrs]
    · simp [WebRTCConnection.sendMessage, hch, hrs]

/-- Witness for C5 at concrete states: an open channel accepts exactly
one serialized write and returns true; a connecting channel refuses with
false and an unchanged state. -/
theorem sendMessage_write_discipline_witness :
    ((WebRTCConnection.sendMessage
        { pc := none, dataChannel := some { readyState := readyStateOpen, sent := [] } }
        (Json.num 7)).1 = true) ∧
    (((WebRTCConnection.sendMessage
        { pc := none, dataChannel := some { readyState := readyStateOpen, sent := [] } }
        (Json.num 7)).2).sentWrites = [[55]]) ∧
    ((WebRTCConnection.sendMessage
        { pc := none, dataChannel := some { readyState := [99], sent := [] } }
        (Json.num 7)).1 = false) := by
  have h1 := sendMessage_write_discipline
    { pc := none, dataChannel := some { readyState := readyStateOpen, sent := [] } } (Json.num 7)
  have h2 := sendMessage_write_discipline
    { pc := none, dataChannel := some { readyState := [99], sent := [] } } (Json.num 7)
  have ht : (WebRTCConnection.sendMessage
      { pc := none, dataChannel := some { readyState := readyStateOpen, sent := [] } }
      (Json.num 7)).1 = true := h1.1.mpr ⟨_, rfl, rfl⟩
  refine ⟨ht, ?_, ?_⟩
  · have := h1.2.1 ht
    simpa using this
  · have hno : ¬ ∃ ch : DataChannelRec,
        (some ({ readyState := [99], sent := [] } : DataChannelRec)
          = some ch ∧ ch.readyState = readyStateOpen) := by
      rintro ⟨ch, hch, hrs⟩
      cases hch
      simp [readyStateOpen] at hrs
    rcases hf : (WebRTCConnection.sendMessage
      { pc := none, dataChannel := some { readyState := [99], sent := [] } }
      (Json.num 7)).1 with _ | _
    · rfl
    · exact absurd (h2.1.mp hf) hno

/-- C6: the gathering wait of `initAsOfferer` resolves at whichever of
the gathering-complete event and the fixed 5000 ms timeout comes first;
in particular, when gathering never completes it resolves exactly at the
timeout and returns the local description as set at that moment, and no
execution waits beyond the timeout. -/
theorem initAsOfferer_bounded_gathering_wait :
    ∀ (descAt : Nat → Json) (ic : Bool) (ca : Option Nat) (t : Nat),
      (initAsOfferer descAt false none).resolvedAtMs = iceGatheringTimeoutMs ∧
      (initAsOfferer descAt false none).localDescription = descAt iceGatheringTimeoutMs ∧
      (initAsOfferer descAt false (some t)).resolvedAtMs = min t iceGatheringTimeoutMs ∧
      (initAsOfferer descAt ic ca).resolvedAtMs ≤ iceGatheringTimeoutMs := by
  intro descAt ic ca t
  refine ⟨rfl, rfl, rfl, ?_⟩
  cases ic with
  | true => simp [initAsOfferer, waitForIceGathering]
  | false =>
    cases ca with
    | none => simp [initAsOfferer, waitForIceGathering]
    | some u => simp [initAsOfferer, waitForIceGathering]

/-- C7: the session id is not always six characters long.  When the
random double is 0.5, `toString(36)` prints the shortest expansion
"0.i", so `generateSessionId` returns the single character "I"; the six
character length claimed by the spec (and by the comment above the
function) fails. -/
theorem generateSessionId_length_bug :
    generateSessionId [18] = [73] ∧ (generateSessionId [18]).length = 1 := by
  exact ⟨rfl, rfl⟩

/-- C8: `decodeSdp` never lets an exception of its body escape: whenever
the body (`decodeSdpE`) throws, the function returns null, and whenever
the body produces a value, it returns that value — so every input,
malformed or not, yields `some` or `none`, never a raised error. -/
theorem decodeSdp_never_raises :
    ∀ (s : List Nat),
      (∀ e, decodeSdpE s = .error e → decodeSdp s = none) ∧
      (∀ v, decodeSdpE s = .ok v → decodeSdp s = some v) := by
  intro s
  constructor
  · intro e he
    simp [decodeSdp, he]
  · intro v hv
    simp [decodeSdp, hv]

/-- Witness for C8 at the malformed input "!!!": the body throws (bad
base64 alphabet) and `decodeSdp` returns null. -/
theorem decodeSdp_never_raises_witness :
    decodeSdpE [33, 33, 33] = .error () ∧ decodeSdp [33, 33, 33] = none := by
  refine ⟨rfl, ?_⟩
  exact (decodeSdp_never_raises [33, 33, 33]).1 () rfl

/-- C3 counterexample: the claim quantifies over every payload, but for a
payload whose JSON serialization leaves Latin-1 (here the string "€"),
the body construction `encodeSdp(sdp)` — evaluated before the `try`
block — throws, so `storeSdpOnDweet` rejects with zero POSTs performed
instead of performing one POST to the relay. -/
theorem storeSdpOnDweet_zero_posts_on_encoding_error :
    storeSdpOnDweet (Json.str [8364]) (PostAttempt.resp true) (PostAttempt.resp true)
      = .error () := by
  rfl

/-- C3 (amended to payloads whose encoding succeeds): whenever the call
completes with a trace, exactly one POST went to the relay; exactly one
further POST goes through the CORS proxy if and only if the relay POST
rejected at the network level; a completed HTTP-level non-ok response
triggers no proxy retry and returns false; and the result is true exactly
when the attempt that completed a response had ok status. -/
theorem storeSdpOnDweet_publish_discipline :
    ∀ (sdp : Json) (d p : PostAttempt) (tr : PublishTrace),
      storeSdpOnDweet sdp d p = .ok tr →
      tr.relayPosts = 1 ∧
      (tr.proxyPosts = 1 ↔ d = PostAttempt.rejected) ∧
      (d = PostAttempt.resp false → tr.proxyPosts = 0 ∧ tr.result = false) ∧
      (tr.result = true ↔
        (d = PostAttempt.resp true ∨ (d = PostAttempt.rejected ∧ p = PostAttempt.resp true))) := by
  intro sdp d p tr h
  unfold storeSdpOnDweet at h
  cases henc : encodeSdpE sdp with
  | error e => rw [henc] at h; cases h
  | ok enc =>
    rw [henc] at h
    cases d with
    | resp okFlag =>
      cases h
      cases okFlag <;> simp
    | rejected =>
      cases p with
      | resp okFlag =>
        cases h
        cases okFlag <;> simp
      | rejected =>
        cases h
        simp

/-- Witness for C3 (amended) at a concrete call: relay POST rejected,
proxy POST ok — one relay POST, one proxy POST, result true. -/
theorem storeSdpOnDweet_publish_discipline_witness :
    storeSdpOnDweet Json.null PostAttempt.rejected (PostAttempt.resp true)
      = .ok { result := true, relayPosts := 1, proxyPosts := 1 } ∧
    ({ result := true, relayPosts := 1, proxyPosts := 1 } : PublishTrace).relayPosts = 1 ∧
    (({ result := true, relayPosts := 1, proxyPosts := 1 } : PublishTrace).proxyPosts = 1 ↔
      PostAttempt.rejected = PostAttempt.rejected) ∧
    (({ result := true, relayPosts := 1, proxyPosts := 1 } : PublishTrace).result = true ↔
      (PostAttempt.rejected = PostAttempt.resp true ∨
        (PostAttempt.rejected = PostAttempt.rejected ∧
          PostAttempt.resp true = PostAttempt.resp true))) := by
  have h := storeSdpOnDweet_publish_discipline Json.null PostAttempt.rejected
    (PostAttempt.resp true) { result := true, relayPosts := 1, proxyPosts := 1 } rfl
  exact ⟨rfl, h.1, h.2.1, h.2.2.2⟩

/-- Helper for C10: whatever `mkCandidateObj` returns is an object with
exactly the three fields candidate, sdpMLineIndex, sdpMid, in that order,
and a missing (`undefined`) sdpMLineIndex or sdpMid comes out as null. -/
theorem mkCandidateObj_shape :
    ∀ (cand cobj : Json), mkCandidateObj cand = .ok cobj →
      ∃ cf idx mid,
        cobj = Json.obj [(keyCandidate, cf), (keySdpMLineIndex, idx), (keySdpMid, mid)] ∧
        (cand.getProp keySdpMLineIndex = .ok none → idx = Json.null) ∧
        (cand.getProp keySdpMid = .ok none → mid = Json.null) := by
  intro cand cobj h
  unfold mkCandidateObj at h
  cases h1 : cand.getProp keyCandidate with
  | error e => rw [h1] at h; cases h
  | ok c =>
    rw [h1] at h
    cases h2 : cand.getProp keySdpMLineIndex with
    | error e => simp [h2, Except.bind] at h
    | ok idxv =>
      rw [h2] at h
      cases h3 : cand.getProp keySdpMid with
      | error e => simp [h3, Except.bind] at h
      | ok midv =>
        rw [h3] at h
        simp only [Except.ok.injEq] at h
        refine ⟨_, _, _, h.symm, ?_, ?_⟩
        · intro hidx
          injection hidx with hidx
          subst hidx
          rfl
        · intro hmid
          injection hmid with hmid
          subst hmid
          rfl

/-- C10: every candidate record POSTed to the relay by
`storeIceCandidateOnDweet` is a body whose candidate field carries
exactly the three wire fields candidate, sdpMLineIndex and sdpMid, with
sdpMLineIndex and sdpMid defaulted to null when absent from the input. -/
theorem storeIceCandidate_published_shape :
    ∀ (cand : Json) (ts : Int) (d p : PostAttempt) (body : Json),
      (storeIceCandidateOnDweet cand ts d p).postedBody = some body →
      ∃ cf idx mid,
        body = Json.obj
          [(keyCandidate, Json.obj
              [(keyCandidate, cf), (keySdpMLineIndex, idx), (keySdpMid, mid)]),
            (keyTimestamp, Json.num ts)] ∧
        (cand.getProp keySdpMLineIndex = .ok none → idx = Json.null) ∧
        (cand.getProp keySdpMid = .ok none → mid = Json.null) := by
  intro cand ts d p body h
  unfold storeIceCandidateOnDweet at h
  cases hmk : mkCandidateObj cand with
  | error e => rw [hmk] at h; cases h
  | ok cobj =>
    rw [hmk] at h
    obtain ⟨cf, idx, mid, hshape, hidx, hmid⟩ := mkCandidateObj_shape cand cobj hmk
    have hbody : body = Json.obj [(keyCandidate, cobj), (keyTimestamp, Json.num ts)] := by
      cases d with
      | resp okFlag => cases h; rfl
      | rejected =>
        cases p with
        | resp okFlag => cases h; rfl
        | rejected => cases h; rfl
    exact ⟨cf, idx, mid, by rw [hbody, hshape], hidx, hmid⟩

/-- Witness for C10 at a concrete sparse candidate (only a candidate
string, no sdpMLineIndex, no sdpMid) POSTed successfully: the published
body carries the full three-field wire shape with nulls filled in. -/
theorem storeIceCandidate_published_shape_witness :
    (storeIceCandidateOnDweet (Json.obj [(keyCandidate, Json.str [99])]) 5
        (PostAttempt.resp true) (PostAttempt.resp true)).postedBody
      = some (Json.obj
          [(keyCandidate, Json.obj
              [(keyCandidate, Json.str [99]), (keySdpMLineIndex, Json.null),
                (keySdpMid, Json.null)]),
            (keyTimestamp, Json.num 5)]) ∧
    (∃ cf idx mid,
      Json.obj
          [(keyCandidate, Json.obj
              [(keyCandidate, Json.str [99]), (keySdpMLineIndex, Json.null),
                (keySdpMid, Json.null)]),
            (keyTimestamp, Json.num 5)]
        = Json.obj
          [(keyCandidate, Json.obj
              [(keyCandidate, cf), (keySdpMLineIndex, idx), (keySdpMid, mid)]),
            (keyTimestamp, Json.num 5)] ∧
      ((Json.obj [(keyCandidate, Json.str [99])]).getProp keySdpMLineIndex = .ok none →
        idx = Json.null) ∧
      ((Json.obj [(keyCandidate, Json.str [99])]).getProp keySdpMid = .ok none →
        mid = Json.null)) := by
  refine ⟨rfl, ?_⟩
  exact storeIceCandidate_published_shape (Json.obj [(keyCandidate, Json.str [99])]) 5
    (PostAttempt.resp true) (PostAttempt.resp true) _ rfl

/-- Helper: a failing attempt followed by at least one more attempt
sleeps once and re-enters the loop. -/
theorem retrieveGo_hardFail_cons :
    ∀ (o r : FetchOutcome) (rs : List FetchOutcome) (att sl : Nat),
      hardFail o = true →
      retrieveGo (o :: r :: rs) att sl = retrieveGo (r :: rs) (att + 1) (sl + 1) := by
  intro o r rs att sl ho
  cases o with
  | netFail => simp [retrieveGo]
  | httpFail => simp [retrieveGo]
  | jsonFail => simp [retrieveGo]
  | ok data =>
    cases hx : extractSdpEncoded data with
    | error e => simp [retrieveGo, hx]
    | ok se => simp [hardFail, hx] at ho

/-- Helper: a failing final attempt gives up with null and no further
sleep. -/
theorem retrieveGo_hardFail_last :
    ∀ (o : FetchOutcome) (att sl : Nat),
      hardFail o = true →
      retrieveGo [o] att sl = { result := none, attemptsMade := att + 1, delaysSlept := sl } := by
  intro o att sl ho
  cases o with
  | netFail => simp [retrieveGo]
  | httpFail => simp [retrieveGo]
  | jsonFail => simp [retrieveGo]
  | ok data =>
    cases hx : extractSdpEncoded data with
    | error e => simp [retrieveGo, hx]
    | ok se => simp [hardFail, hx] at ho

/-- Helper: when every attempt fails, the loop runs them all, sleeping
between consecutive attempts, and returns null. -/
theorem retrieveGo_all_hardFail :
    ∀ (outs : List FetchOutcome) (att sl : Nat),
      (∀ o ∈ outs, hardFail o = true) →
      retrieveGo outs att sl =
        { result := none, attemptsMade := att + outs.length,
          delaysSlept := sl + (outs.length - 1) } := by
  intro outs
  induction outs with
  | nil => intro att sl h; simp [retrieveGo]
  | cons o rest ih =>
    intro att sl h
    have ho : hardFail o = true := h o (by simp)
    have hrest : ∀ x ∈ rest, hardFail x = true := fun x hx => h x (by simp [hx])
    cases rest with
    | nil =>
      rw [retrieveGo_hardFail_last o att sl ho]
      simp
    | cons r rs =>
      rw [retrieveGo_hardFail_cons o r rs att sl ho, ih (att + 1) (sl + 1) hrest]
      simp only [RetrieveTrace.mk.injEq, List.length_cons]
      refine ⟨trivial, by omega, by omega⟩

/-- Helper: the first attempt whose response carries a truthy sdp field
ends the loop at once with the decode of that field. -/
theorem retrieveGo_first_success :
    ∀ (pre : List FetchOutcome) (att sl : Nat) (d v : Json) (rest : List FetchOutcome),
      (∀ o ∈ pre, hardFail o = true) →
      extractSdpEncoded d = .ok (some v) → v.truthy = true →
      retrieveGo (pre ++ FetchOutcome.ok d :: rest) att sl =
        { result := decodeSdpJs v, attemptsMade := att + pre.length + 1,
          delaysSlept := sl + pre.length } := by
  intro pre
  induction pre with
  | nil =>
    intro att sl d v rest hpre hex htr
    simp [retrieveGo, hex, htr]
  | cons o pre' ih =>
    intro att sl d v rest hpre hex htr
    have ho : hardFail o = true := hpre o (by simp)
    have hpre' : ∀ x ∈ pre', hardFail x = true := fun x hx => hpre x (by simp [hx])
    rcases hsplit : pre' ++ FetchOutcome.ok d :: rest with _ | ⟨r, rs⟩
    · exact absurd hsplit (by simp)
    · rw [List.cons_append, hsplit, retrieveGo_hardFail_cons o r rs att sl ho, ← hsplit,
        ih (att + 1) (sl + 1) d v rest hpre' hex htr]
      simp only [RetrieveTrace.mk.injEq, List.length_cons]
      refine ⟨trivial, by omega, by omega⟩

/-- C2 counterexample: against a relay whose very first response is ok
but carries a corrupt (undecodable) sdp payload, `retrieveSdpFromDweet`
with five attempts available returns null after exactly one attempt and
no delay — not only after all five attempts, as the claim states. -/
theorem retrieveSdpFromDweet_early_null_counterexample :
    retrieveSdpFromDweet (List.replicate 5 (FetchOutcome.ok
        (Json.obj [(keyWith, Json.arr [Json.obj [(keyContent,
          Json.obj [(keySdp, Json.str [33, 33, 33])])]])])))
      = { result := none, attemptsMade := 1, delaysSlept := 0 } := by
  rfl

/-- C2 (amended): the loop returns the decode of the first response that
carries a truthy sdp field — immediately, even when that decode is null
— after one attempt per preceding failure with a fixed 1500 ms delay
between consecutive failed attempts; and when every attempt fails at the
network, HTTP or parse level it returns null only after all attempts
(with `maxRetries = 5`, null after exactly 5 attempts and 4 delays). -/
theorem retrieveSdpFromDweet_retry_discipline :
    ∀ (outs pre rest : List FetchOutcome) (d v : Json),
      ((∀ o ∈ outs, hardFail o = true) →
        retrieveSdpFromDweet outs =
          { result := none, attemptsMade := outs.length,
            delaysSlept := outs.length - 1 }) ∧
      ((∀ o ∈ pre, hardFail o = true) → extractSdpEncoded d = .ok (some v) →
        v.truthy = true →
        retrieveSdpFromDweet (pre ++ FetchOutcome.ok d :: rest) =
          { result := decodeSdpJs v, attemptsMade := pre.length + 1,
            delaysSlept := pre.length }) := by
  intro outs pre rest d v
  constructor
  · intro h
    have := retrieveGo_all_hardFail outs 0 0 h
    simpa [retrieveSdpFromDweet] using this
  · intro hpre hex htr
    have := retrieveGo_first_success pre 0 0 d v rest hpre hex htr
    simpa [retrieveSdpFromDweet] using this

/-- Witness for C2 (amended): five universally failing attempts give
null after exactly 5 attempts and 4 delays; one network failure followed
by an ok envelope holding the encoding of the number 2 gives that value
after 2 attempts and 1 delay. -/
theorem retrieveSdpFromDweet_retry_discipline_witness :
    retrieveSdpFromDweet (List.replicate 5 FetchOutcome.httpFail)
      = { result := none, attemptsMade := 5, delaysSlept := 4 } ∧
    retrieveSdpFromDweet [FetchOutcome.netFail,
        FetchOutcome.ok (Json.obj [(keyWith, Json.arr [Json.obj [(keyContent,
          Json.obj [(keySdp, Json.str [77, 103])])]])])]
      = { result := some (Json.num 2), attemptsMade := 2, delaysSlept := 1 } := by
  have h := retrieveSdpFromDweet_retry_discipline
    (List.replicate 5 FetchOutcome.httpFail)
    [FetchOutcome.netFail] []
    (Json.obj [(keyWith, Json.arr [Json.obj [(keyContent,
      Json.obj [(keySdp, Json.str [77, 103])])]])])
    (Json.str [77, 103])
  constructor
  · have h1 := h.1 (by decide)
    rw [h1]
    rfl
  · have h2 := h.2 (by decide) rfl rfl
    simp only [List.cons_append, List.nil_append] at h2
    rw [h2]
    rfl

/-- C9 counterexample: `retrieveIceCandidatesFromDweet` does not accept
the bare-object relay response shape.  The same stored candidate that is
returned from the envelope shape yields null from the bare shape, so the
two shapes are not normalized into one result as the claim states. -/
theorem retrieveIceCandidates_rejects_bare_shape :
    retrieveIceCandidatesFromDweet (FetchOutcome.ok
        (Json.obj [(keyContent, Json.obj [(keyCandidate, Json.str [99])])])) = none ∧
    retrieveIceCandidatesFromDweet (FetchOutcome.ok
        (Json.obj [(keyWith, Json.arr
          [Json.obj [(keyContent, Json.obj [(keyCandidate, Json.str [99])])]])]))
      = some { candidate := Json.str [99], timestamp := none } := by
  exact ⟨rfl, rfl⟩

/-- Helper for C9: `retrieveSdpFromDweet` extracts the same sdp field
from the envelope shape and from the bare-object shape, for any content
object that does not itself carry `with` or `content` properties. -/
theorem extractSdpEncoded_envelope_eq_bare :
    ∀ (c created : Json),
      c.truthy = true → c.getProp keyWith = .ok none → c.getProp keyContent = .ok none →
      extractSdpEncoded (Json.obj [(keyWith,
          Json.arr [Json.obj [(keyContent, c), (keyCreated, created)]])])
        = extractSdpEncoded c := by
  intro c created htr hw hc
  have henv : extractSdpEncoded (Json.obj [(keyWith,
      Json.arr [Json.obj [(keyContent, c), (keyCreated, created)]])])
      = extractSdpTail (if c.truthy = true then c
          else Json.obj [(keyContent, c), (keyCreated, created)]) := rfl
  rw [htr] at henv
  simp only [if_true] at henv
  have hbare : extractSdpEncoded c = extractSdpOfDweet c := by
    unfold extractSdpEncoded
    rw [hw]
  have hbare2 : extractSdpOfDweet c = extractSdpTail c := by
    unfold extractSdpOfDweet
    rw [htr, hc]
    simp
  rw [henv, hbare, hbare2]

/-- C9 (amended): both relay fetch operations return null on any network
failure, non-ok HTTP response, or body decode failure (for the sdp
retrieval, after its bounded retries); `retrieveSdpFromDweet` accepts
and normalizes both the envelope shape and the bare-object shape into
one result, while `retrieveIceCandidatesFromDweet` accepts only the
envelope shape (a bare object yields null, as the counterexample
records). -/
theorem relay_fetch_failure_and_shape_handling :
    ∀ (outs : List FetchOutcome) (c created : Json),
      (retrieveIceCandidatesFromDweet FetchOutcome.netFail = none ∧
        retrieveIceCandidatesFromDweet FetchOutcome.httpFail = none ∧
        retrieveIceCandidatesFromDweet FetchOutcome.jsonFail = none ∧
        retrieveIceCandidatesFromDweet (FetchOutcome.ok Json.null) = none) ∧
      ((∀ o ∈ outs, hardFail o = true) → (retrieveSdpFromDweet outs).result = none) ∧
      (c.truthy = true → c.getProp keyWith = .ok none → c.getProp keyContent = .ok none →
        extractSdpEncoded (Json.obj [(keyWith,
            Json.arr [Json.obj [(keyContent, c), (keyCreated, created)]])])
          = extractSdpEncoded c) := by
  intro outs c created
  refine ⟨⟨rfl, rfl, rfl, rfl⟩, ?_, extractSdpEncoded_envelope_eq_bare c created⟩
  intro h
  rw [show retrieveSdpFromDweet outs = retrieveGo outs 0 0 from rfl,
    retrieveGo_all_hardFail outs 0 0 h]

/-- Witness for C9 (amended) at a concrete content object: one failing
attempt gives a null result, and the envelope and bare shapes extract
the same sdp string. -/
theorem relay_fetch_failure_and_shape_handling_witness :
    (retrieveSdpFromDweet [FetchOutcome.httpFail]).result = none ∧
    extractSdpEncoded (Json.obj [(keyWith,
        Json.arr [Json.obj [(keyContent, Json.obj [(keySdp, Json.str [77, 103])]),
          (keyCreated, Json.num 7)]])])
      = extractSdpEncoded (Json.obj [(keySdp, Json.str [77, 103])]) := by
  have h := relay_fetch_failure_and_shape_handling [FetchOutcome.httpFail]
    (Json.obj [(keySdp, Json.str [77, 103])]) (Json.num 7)
  exact ⟨h.2.1 (by decide), h.2.2 rfl rfl rfl⟩

/-- `digitsVal` unfolds over a trailing digit. -/
theorem digitsVal_append_one :
    ∀ (ds : List Nat) (d : Nat), digitsVal (ds ++ [d]) = digitsVal ds * 10 + (d - 48) := by
  intro ds d
  simp [digitsVal, List.foldl_append]

/-- The fuel-indexed digit printer emits a nonempty, all-digit list whose
value is the printed number, for sufficient fuel. -/
theorem natDigitsAux_spec :
    ∀ (fuel n : Nat), n < fuel →
      natDigitsAux fuel n ≠ [] ∧
      (∀ u ∈ natDigitsAux fuel n, isDigitUnit u = true) ∧
      digitsVal (natDigitsAux fuel n) = n := by
  intro fuel
  induction fuel with
  | zero => intro n h; omega
  | succ fuel ih =>
    intro n h
    by_cases h10 : n < 10
    · refine ⟨by simp [natDigitsAux, h10], ?_, ?_⟩
      · intro u hu
        simp [natDigitsAux, h10] at hu
        simp [hu, isDigitUnit]
        omega
      · simp [natDigitsAux, h10, digitsVal]
    · have hdiv : n / 10 < fuel := by
        have h1 : n / 10 < n := Nat.div_lt_self (by omega) (by omega)
        omega
      obtain ⟨hne, hdig, hval⟩ := ih (n / 10) hdiv
      refine ⟨by simp [natDigitsAux, h10], ?_, ?_⟩
      · intro u hu
        simp only [natDigitsAux, if_neg h10, List.mem_append, List.mem_singleton] at hu
        rcases hu with hu | hu
        · exact hdig u hu
        · subst hu
          simp [isDigitUnit]
          omega
      · simp only [natDigitsAux, if_neg h10]
        rw [digitsVal_append_one, hval]
        omega

/-- The digit printer's first digit of a positive number is nonzero. -/
theorem natDigitsAux_head_pos :
    ∀ (fuel n : Nat), n < fuel → 0 < n →
      ∃ d t, natDigitsAux fuel n = (48 + d) :: t ∧ 0 < d ∧ d ≤ 9 := by
  intro fuel
  induction fuel with
  | zero => intro n h; omega
  | succ fuel ih =>
    intro n h hpos
    by_cases h10 : n < 10
    · exact ⟨n, [], by simp [natDigitsAux, h10], hpos, by omega⟩
    · have hdiv : n / 10 < fuel := by
        have h1 : n / 10 < n := Nat.div_lt_self (by omega) (by omega)
        omega
      obtain ⟨d, t, hdt, hd0, hd9⟩ := ih (n / 10) hdiv (by omega)
      exact ⟨d, t ++ [48 + n % 10], by simp [natDigitsAux, h10, hdt], hd0, hd9⟩

/-- Splitting a digit run followed by a non-digit continuation. -/
theorem spanDigits_append :
    ∀ (ds rest : List Nat), (∀ u ∈ ds, isDigitUnit u = true) → digitStarts rest = false →
      spanDigits (ds ++ rest) = (ds, rest) := by
  intro ds
  induction ds with
  | nil =>
    intro rest _ hr
    cases rest with
    | nil => rfl
    | cons u r =>
      simp only [digitStarts] at hr
      simp [spanDigits, hr]
  | cons d ds' ih =>
    intro rest h hr
    have hd := h d (by simp)
    simp [spanDigits, hd, ih rest (fun u hu => h u (by simp [hu])) hr]

/-- A `numberStop` continuation starts with neither a digit nor a
fraction/exponent marker. -/
theorem numberStop_facts :
    ∀ (rest : List Nat), numberStop rest = true →
      digitStarts rest = false ∧ fracOrExpStarts rest = false := by
  intro rest h
  cases rest with
  | nil => exact ⟨rfl, rfl⟩
  | cons u r =>
    simp only [numberStop, Bool.not_eq_true', Bool.or_eq_false_iff,
      decide_eq_false_iff_not] at h
    obtain ⟨⟨⟨h1, h2⟩, h3⟩, h4⟩ := h
    simp only [digitStarts, fracOrExpStarts]
    exact ⟨h1, by simp [h2, h3, h4]⟩

/-- The integer printer round-trips through the unsigned number parser. -/
theorem parseNatNumber_natDigits :
    ∀ (n : Nat) (rest : List Nat), numberStop rest = true →
      parseNatNumber (natDigits n ++ rest) = some (n, rest) := by
  intro n rest hstop
  obtain ⟨hds, hfe⟩ := numberStop_facts rest hstop
  by_cases hn : n = 0
  · subst hn
    show parseNatNumber (48 :: rest) = some (0, rest)
    simp [parseNatNumber, hfe, hds]
  · obtain ⟨d, t, hdt, hd0, hd9⟩ := natDigitsAux_head_pos (n + 1) n (by omega) (by omega)
    obtain ⟨-, hdig, hval⟩ := natDigitsAux_spec (n + 1) n (by omega)
    have htdig : ∀ u ∈ t, isDigitUnit u = true := by
      intro u hu
      exact hdig u (by rw [show natDigitsAux (n + 1) n = (48 + d) :: t from hdt]; simp [hu])
    have hvh : digitsVal ((48 + d) :: t) = n := by
      rw [← hdt, hval]
    show parseNatNumber (natDigitsAux (n + 1) n ++ rest) = some (n, rest)
    rw [hdt]
    have hspan := spanDigits_append t rest htdig hds
    simp [parseNatNumber, hspan, hfe, isDigitUnit, hvh,
      show ¬ (48 + d = 48) from by omega,
      show 48 ≤ 48 + d from by omega,
      show 48 + d ≤ 57 from by omega]

/-- The signed integer printer round-trips through the number parser. -/
theorem parseNumberFrom_intUnits :
    ∀ (i : Int) (rest : List Nat), numberStop rest = true →
      parseNumberFrom (intUnits i ++ rest) = some (Json.num i, rest) := by
  intro i rest hstop
  by_cases hneg : i < 0
  · have hi : intUnits i = 45 :: natDigits i.natAbs := by simp [intUnits, hneg]
    rw [hi, List.cons_append]
    show parseNumberFrom (45 :: (natDigits i.natAbs ++ rest)) = some (Json.num i, rest)
    simp only [parseNumberFrom]
    rw [parseNatNumber_natDigits i.natAbs rest hstop]
    have hval : -((i.natAbs : Int)) = i := by omega
    simp only [Option.map_some']
    rw [hval]
    simp
  · have hi : intUnits i = natDigits i.toNat := by simp [intUnits, hneg]
    obtain ⟨hne, hdig, -⟩ := natDigitsAux_spec (i.toNat + 1) i.toNat (by omega)
    rcases hnd : natDigits i.toNat with _ | ⟨u, t⟩
    · exact absurd hnd hne
    · have hu : isDigitUnit u = true := hdig u (by
        show u ∈ natDigitsAux (i.toNat + 1) i.toNat
        rw [show natDigitsAux (i.toNat + 1) i.toNat = u :: t from hnd]
        simp)
    
      have hu45 : ¬ (u = 45) := by
        simp [isDigitUnit] at hu
        omega
      rw [hi, hnd, List.cons_append]
      have harm : parseNumberFrom (u :: (t ++ rest))
          = (parseNatNumber (u :: (t ++ rest))).map
              (fun p => (Json.num (p.1 : Int), p.2)) := by
        simp only [parseNumberFrom, if_neg hu45]
      rw [harm, ← List.cons_append, ← hnd, parseNatNumber_natDigits i.toNat rest hstop]
      have hval : ((i.toNat : Int)) = i := by omega
      simp only [Option.map_some']
      rw [hval]

/-- Hex digits printed by the serializer decode to themselves. -/
theorem hexVal_hexDigitChar :
    ∀ (m : Nat), m < 16 → hexVal (hexDigitChar m) = some m := by
  intro m hm
  interval_cases m <;> rfl

/-- The escaped body of a serialized JSON string parses back to the
original code units, leaving the input after the closing quote. -/
theorem parseStringBody_quote :
    ∀ (s rest : List Nat),
      parseStringBody ((s.map escapeUnit).flatten ++ 34 :: rest) = some (s, rest) := by
  intro s
  induction s with
  | nil =>
    intro rest
    show parseStringBody (34 :: rest) = some ([], rest)
    rw [parseStringBody.eq_def]
    simp
  | cons u s' ih =>
    intro rest
    simp only [List.map_cons, List.flatten_cons, List.append_assoc]
    by_cases h34 : u = 34
    · subst h34
      show parseStringBody (92 :: 34 :: ((List.map escapeUnit s').flatten ++ 34 :: rest))
        = some (34 :: s', rest)
      rw [parseStringBody.eq_def]
      simp [ih rest]
    · by_cases h92 : u = 92
      · subst h92
        show parseStringBody (92 :: 92 :: ((List.map escapeUnit s').flatten ++ 34 :: rest))
          = some (92 :: s', rest)
        rw [parseStringBody.eq_def]
        simp [ih rest]
      · by_cases h8 : u = 8
        · subst h8
          show parseStringBody (92 :: 98 :: ((List.map escapeUnit s').flatten ++ 34 :: rest))
            = some (8 :: s', rest)
          rw [parseStringBody.eq_def]
          simp [ih rest]
        · by_cases h9 : u = 9
          · subst h9
            show parseStringBody (92 :: 116 :: ((List.map escapeUnit s').flatten ++ 34 :: rest))
              = some (9 :: s', rest)
            rw [parseStringBody.eq_def]
            simp [ih rest]
          · by_cases h10 : u = 10
            · subst h10
              show parseStringBody (92 :: 110 :: ((List.map escapeUnit s').flatten ++ 34 :: rest))
                = some (10 :: s', rest)
              rw [parseStringBody.eq_def]
              simp [ih rest]
            · by_cases h12 : u = 12
              · subst h12
                show parseStringBody (92 :: 102 :: ((List.map escapeUnit s').flatten ++ 34 :: rest))
                  = some (12 :: s', rest)
                rw [parseStringBody.eq_def]
                simp [ih rest]
              · by_cases h13 : u = 13
                · subst h13
                  show parseStringBody (92 :: 114 :: ((List.map escapeUnit s').flatten ++ 34 :: rest))
                    = some (13 :: s', rest)
                  rw [parseStringBody.eq_def]
                  simp [ih rest]
                · by_cases hlt : u < 32
                  · have hesc : escapeUnit u
                        = [92, 117, 48, 48, hexDigitChar (u / 16), hexDigitChar (u % 16)] := by
                      simp [escapeUnit, h34, h92, h8, h9, h10, h12, h13, hlt]
                    rw [hesc]
                    have hx1 : hexVal (hexDigitChar (u / 16)) = some (u / 16) :=
                      hexVal_hexDigitChar (u / 16) (by omega)
                    have hx2 : hexVal (hexDigitChar (u % 16)) = some (u % 16) :=
                      hexVal_hexDigitChar (u % 16) (by omega)
                    show parseStringBody (92 :: 117 :: 48 :: 48 :: hexDigitChar (u / 16)
                        :: hexDigitChar (u % 16) :: ((List.map escapeUnit s').flatten ++ 34 :: rest))
                      = some (u :: s', rest)
                    rw [parseStringBody.eq_def]
                    simp [hx1, hx2, ih rest, show hexVal 48 = some 0 from rfl]
                    omega
                  · have hesc : escapeUnit u = [u] := by
                      simp [escapeUnit, h34, h92, h8, h9, h10, h12, h13, hlt]
                    rw [hesc]
                    show parseStringBody (u :: ((List.map escapeUnit s').flatten ++ 34 :: rest))
                      = some (u :: s', rest)
                    rw [parseStringBody.eq_def]
                    simp [h34, h92, hlt, ih rest]

/-- Skipping whitespace leaves a non-whitespace-headed input unchanged. -/
theorem skipWs_cons_of_not_ws :
    ∀ (u : Nat) (t : List Nat), isWsUnit u = false → skipWs (u :: t) = u :: t := by
  intro u t h
  simp [skipWs, h]

/-- A `numberStop` continuation from an explicit non-digit head. -/
theorem numberStop_of_head :
    ∀ (u : Nat) (r : List Nat), ¬ (48 ≤ u ∧ u ≤ 57) → u ≠ 46 → u ≠ 101 → u ≠ 69 →
      numberStop (u :: r) = true := by
  intro u r h1 h2 h3 h4
  simp [numberStop, isDigitUnit]
  omega

/-- The integer printer starts with a minus sign or a decimal digit. -/
theorem intUnits_head :
    ∀ (n : Int), ∃ u t, intUnits n = u :: t ∧ (u = 45 ∨ (48 ≤ u ∧ u ≤ 57)) := by
  intro n
  by_cases hneg : n < 0
  · exact ⟨45, natDigits n.natAbs, by simp [intUnits, hneg], Or.inl rfl⟩
  · have hspec := natDigitsAux_spec (n.toNat + 1) n.toNat (by omega)
    rcases hnd : natDigits n.toNat with _ | ⟨u, t⟩
    · exact absurd hnd hspec.1
    · have hu : isDigitUnit u = true := hspec.2.1 u (by
        show u ∈ natDigitsAux (n.toNat + 1) n.toNat
        rw [show natDigitsAux (n.toNat + 1) n.toNat = u :: t from hnd]
        simp)
      simp only [isDigitUnit, Bool.and_eq_true, decide_eq_true_eq] at hu
      exact ⟨u, t, by simp [intUnits, hneg, hnd], Or.inr hu⟩

/-- Every serialized value starts with a unit that is not whitespace and
not a closing bracket, closing brace or comma. -/
theorem stringify_head :
    ∀ (x : Json), ∃ u t, stringify x = u :: t ∧ isWsUnit u = false ∧
      u ≠ 93 ∧ u ≠ 125 ∧ u ≠ 44 := by
  intro x
  cases x with
  | null => exact ⟨110, _, rfl, rfl, by omega, by omega, by omega⟩
  | bool b =>
    cases b with
    | false => exact ⟨102, _, rfl, rfl, by omega, by omega, by omega⟩
    | true => exact ⟨116, _, rfl, rfl, by omega, by omega, by omega⟩
  | num n =>
    obtain ⟨u, t, hut, hu⟩ := intUnits_head n
    refine ⟨u, t, hut, ?_, ?_, ?_, ?_⟩
    · simp [isWsUnit]
      omega
    · omega
    · omega
    · omega
  | str s => exact ⟨34, _, rfl, rfl, by omega, by omega, by omega⟩
  | arr xs => exact ⟨91, _, rfl, rfl, by omega, by omega, by omega⟩
  | obj kvs => exact ⟨123, _, rfl, rfl, by omega, by omega, by omega⟩

/-- A serialized value is never the empty string. -/
theorem stringify_ne_nil : ∀ (x : Json), stringify x ≠ [] := by
  intro x h
  obtain ⟨u, t, hut, -⟩ := stringify_head x
  rw [h] at hut
  cases hut

/-- A serialized value has positive length. -/
theorem stringify_length_pos : ∀ (x : Json), 1 ≤ (stringify x).length := by
  intro x
  obtain ⟨u, t, hut, -⟩ := stringify_head x
  rw [hut]
  simp

/-- Dispatch of the value parser into the number branch. -/
theorem parseValue_number_dispatch :
    ∀ (fuel u : Nat) (tail : List Nat), (u = 45 ∨ (48 ≤ u ∧ u ≤ 57)) →
      parseValue (fuel + 1) (u :: tail) = parseNumberFrom (u :: tail) := by
  intro fuel u tail h
  rw [parseValue.eq_def]
  have h110 : u ≠ 110 := by omega
  have h116 : u ≠ 116 := by omega
  have h102 : u ≠ 102 := by omega
  have h34 : u ≠ 34 := by omega
  have h91 : u ≠ 91 := by omega
  have h123 : u ≠ 123 := by omega
  have hnum : (decide (u = 45) || isDigitUnit u) = true := by
    simp [isDigitUnit]
    omega
  simp [h110, h116, h102, h34, h91, h123, hnum]

/-- Dispatch of the value parser into the string branch. -/
theorem parseValue_string_dispatch :
    ∀ (fuel : Nat) (body : List Nat),
      parseValue (fuel + 1) (34 :: body)
        = (parseStringBody body).map (fun p => (Json.str p.1, p.2)) := by
  intro fuel body
  rw [parseValue.eq_def]
  simp

/-- Dispatch of the value parser into the array branch. -/
theorem parseValue_arr_dispatch :
    ∀ (fuel : Nat) (tail : List Nat),
      parseValue (fuel + 1) (91 :: tail)
        = (match skipWs tail with
          | [] => none
          | v :: r =>
            if v = 93 then some (Json.arr [], r)
            else (parseElems fuel (v :: r)).map (fun p => (Json.arr p.1, p.2))) := by
  intro fuel tail
  rw [parseValue.eq_def]
  simp

/-- Dispatch of the value parser into the object branch. -/
theorem parseValue_obj_dispatch :
    ∀ (fuel : Nat) (tail : List Nat),
      parseValue (fuel + 1) (123 :: tail)
        = (match skipWs tail with
          | [] => none
          | v :: r =>
            if v = 125 then some (Json.obj [], r)
            else (parseFields fuel (v :: r)).map (fun p => (Json.obj p.1, p.2))) := by
  intro fuel tail
  rw [parseValue.eq_def]
  simp

/-- Main round-trip induction: a serialized value (or nonempty element /
member list) followed by a suitable continuation parses back exactly,
for any fuel at least the serialized length (plus one for the list
forms). -/
theorem parse_stringify_aux :
    ∀ fuel : Nat,
      (∀ (x : Json) (rest : List Nat), (stringify x).length ≤ fuel → numberStop rest = true →
        parseValue fuel (stringify x ++ rest) = some (x, rest)) ∧
      (∀ (xs : List Json) (rest : List Nat), xs ≠ [] →
        (stringifyElems xs).length + 1 ≤ fuel →
        parseElems fuel (stringifyElems xs ++ 93 :: rest) = some (xs, rest)) ∧
      (∀ (kvs : List (List Nat × Json)) (rest : List Nat), kvs ≠ [] →
        (stringifyFields kvs).length + 1 ≤ fuel →
        parseFields fuel (stringifyFields kvs ++ 125 :: rest) = some (kvs, rest)) := by
  intro fuel
  induction fuel with
  | zero =>
    refine ⟨?_, ?_, ?_⟩
    · intro x rest hlen _
      have := stringify_length_pos x
      omega
    · intro xs rest _ hlen
      omega
    · intro kvs rest _ hlen
      omega
  | succ fuel ih =>
    obtain ⟨ih1, ih2, ih3⟩ := ih
    refine ⟨?_, ?_, ?_⟩
    · intro x rest hlen hstop
      cases x with
      | null => rfl
      | bool b => cases b <;> rfl
      | num n =>
        obtain ⟨u, t, hut, hu⟩ := intUnits_head n
        have hs : stringify (Json.num n) = intUnits n := rfl
        rw [hs, hut, List.cons_append,
          parseValue_number_dispatch fuel u (t ++ rest) hu,
          ← List.cons_append, ← hut]
        exact parseNumberFrom_intUnits n rest hstop
      | str s =>
        have hs : stringify (Json.str s) ++ rest
            = 34 :: ((s.map escapeUnit).flatten ++ 34 :: rest) := by
          show quoteStr s ++ rest = _
          simp [quoteStr]
        rw [hs, parseValue_string_dispatch, parseStringBody_quote s rest]
        rfl
      | arr xs =>
        have hs : stringify (Json.arr xs) ++ rest
            = 91 :: (stringifyElems xs ++ 93 :: rest) := by
          show (91 :: (stringifyElems xs ++ [93])) ++ rest = _
          simp
        rw [hs, parseValue_arr_dispatch]
        cases xs with
        | nil =>
          show (match skipWs (93 :: rest) with
            | [] => none
            | v :: r =>
              if v = 93 then some (Json.arr [], r)
              else (parseElems fuel (v :: r)).map (fun p => (Json.arr p.1, p.2)))
            = some (Json.arr [], rest)
          rw [skipWs_cons_of_not_ws 93 rest rfl]
          rfl
        | cons y ys =>
          obtain ⟨u, t, hut, huws, hu93, -, -⟩ := stringify_head y
          have hdec : ∃ es, stringifyElems (y :: ys) = stringify y ++ es := by
            cases ys with
            | nil => exact ⟨[], by simp [stringifyElems]⟩
            | cons z zs => exact ⟨44 :: stringifyElems (z :: zs), rfl⟩
          obtain ⟨es, hes⟩ := hdec
          have hhead : stringifyElems (y :: ys) ++ 93 :: rest
              = u :: (t ++ es ++ 93 :: rest) := by
            rw [hes, hut]
            simp
          rw [hhead, skipWs_cons_of_not_ws u _ huws]
          show (if u = 93 then some (Json.arr [], t ++ es ++ 93 :: rest)
            else (parseElems fuel (u :: (t ++ es ++ 93 :: rest))).map
              (fun p => (Json.arr p.1, p.2))) = some (Json.arr (y :: ys), rest)
          rw [if_neg hu93, ← hhead]
          have hblen : (stringify (Json.arr (y :: ys))).length
              = (stringifyElems (y :: ys)).length + 2 := by
            show (91 :: (stringifyElems (y :: ys) ++ [93])).length = _
            simp
          rw [ih2 (y :: ys) rest (by simp) (by omega)]
          rfl
      | obj kvs =>
        have hs : stringify (Json.obj kvs) ++ rest
            = 123 :: (stringifyFields kvs ++ 125 :: rest) := by
          show (123 :: (stringifyFields kvs ++ [125])) ++ rest = _
          simp
        rw [hs, parseValue_obj_dispatch]
        cases kvs with
        | nil =>
          show (match skipWs (125 :: rest) with
            | [] => none
            | v :: r =>
              if v = 125 then some (Json.obj [], r)
              else (parseFields fuel (v :: r)).map (fun p => (Json.obj p.1, p.2)))
            = some (Json.obj [], rest)
          rw [skipWs_cons_of_not_ws 125 rest rfl]
          rfl
        | cons kv kvs2 =>
          have hdec : ∃ es, stringifyFields (kv :: kvs2)
              = quoteStr kv.1 ++ 58 :: stringify kv.2 ++ es := by
            cases kvs2 with
            | nil => exact ⟨[], by simp [stringifyFields]⟩
            | cons kv2 kvs3 => exact ⟨44 :: stringifyFields (kv2 :: kvs3), by simp [stringifyFields]⟩
          obtain ⟨es, hes⟩ := hdec
          have hhead : stringifyFields (kv :: kvs2) ++ 125 :: rest
              = 34 :: (((kv.1.map escapeUnit).flatten ++ [34]) ++ 58 :: stringify kv.2 ++ es ++ 125 :: rest) := by
            rw [hes]
            simp [quoteStr]
          rw [hhead, skipWs_cons_of_not_ws 34 _ rfl]
          show (if (34 : Nat) = 125 then
              some (Json.obj [], ((kv.1.map escapeUnit).flatten ++ [34]) ++ 58 :: stringify kv.2 ++ es ++ 125 :: rest)
            else (parseFields fuel (34 :: (((kv.1.map escapeUnit).flatten ++ [34]) ++ 58 :: stringify kv.2 ++ es ++ 125 :: rest))).map
              (fun p => (Json.obj p.1, p.2))) = some (Json.obj (kv :: kvs2), rest)
          rw [if_neg (by omega), ← hhead]
          have hblen : (stringify (Json.obj (kv :: kvs2))).length
              = (stringifyFields (kv :: kvs2)).length + 2 := by
            show (123 :: (stringifyFields (kv :: kvs2) ++ [125])).length = _
            simp
          rw [ih3 (kv :: kvs2) rest (by simp) (by omega)]
          rfl
    · intro xs rest hne hlen
      cases xs with
      | nil => exact absurd rfl hne
      | cons x xs2 =>
        obtain ⟨u, t, hut, huws, -, -, -⟩ := stringify_head x
        cases xs2 with
        | nil =>
          have hlen1 : (stringifyElems [x]).length = (stringify x).length := by
            show (stringify x).length = _
            rfl
          have hskip : skipWs (stringifyElems [x] ++ 93 :: rest)
              = stringify x ++ 93 :: rest := by
            show skipWs (stringify x ++ 93 :: rest) = _
            rw [hut, List.cons_append, skipWs_cons_of_not_ws u _ huws]
          rw [parseElems.eq_def]
          simp [hskip,
            ih1 x (93 :: rest) (by omega)
              (numberStop_of_head 93 rest (by omega) (by omega) (by omega) (by omega)),
            skipWs_cons_of_not_ws 93 rest rfl]
        | cons z zs =>
          have hsplit : stringifyElems (x :: z :: zs) ++ 93 :: rest
              = stringify x ++ (44 :: (stringifyElems (z :: zs) ++ 93 :: rest)) := by
            show (stringify x ++ 44 :: stringifyElems (z :: zs)) ++ 93 :: rest = _
            simp
          have hlen2 : (stringifyElems (x :: z :: zs)).length
              = (stringify x).length + 1 + (stringifyElems (z :: zs)).length := by
            show (stringify x ++ 44 :: stringifyElems (z :: zs)).length = _
            simp
            omega
          have hxpos := stringify_length_pos x
          have hskip : skipWs (stringifyElems (x :: z :: zs) ++ 93 :: rest)
              = stringify x ++ (44 :: (stringifyElems (z :: zs) ++ 93 :: rest)) := by
            rw [hsplit]
            rw [hut, List.cons_append, skipWs_cons_of_not_ws u _ huws]
          rw [parseElems.eq_def]
          simp [hskip,
            ih1 x (44 :: (stringifyElems (z :: zs) ++ 93 :: rest)) (by omega)
              (numberStop_of_head 44 _ (by omega) (by omega) (by omega) (by omega)),
            skipWs_cons_of_not_ws 44 _ rfl,
            ih2 (z :: zs) rest (by simp) (by omega)]
    · intro kvs rest hne hlen
      cases kvs with
      | nil => exact absurd rfl hne
      | cons kv kvs2 =>
        obtain ⟨u, t, hut, huws, -, -, -⟩ := stringify_head kv.2
        have hqlen : (quoteStr kv.1).length = (kv.1.map escapeUnit).flatten.length + 2 := by
          simp [quoteStr]
        have hvpos := stringify_length_pos kv.2
        cases kvs2 with
        | nil =>
          have hlen1 : (stringifyFields [kv]).length
              = (quoteStr kv.1).length + 1 + (stringify kv.2).length := by
            show (quoteStr kv.1 ++ 58 :: stringify kv.2).length = _
            simp
            omega
          have hform : stringifyFields [kv] ++ 125 :: rest
              = 34 :: ((kv.1.map escapeUnit).flatten ++ 34 :: (58 :: (stringify kv.2 ++ 125 :: rest))) := by
            show (quoteStr kv.1 ++ 58 :: stringify kv.2) ++ 125 :: rest = _
            simp [quoteStr]
          have hskipv : skipWs (stringify kv.2 ++ 125 :: rest) = stringify kv.2 ++ 125 :: rest := by
            rw [hut, List.cons_append, skipWs_cons_of_not_ws u _ huws]
          rw [parseFields.eq_def, hform]
          simp [skipWs_cons_of_not_ws 34 _ rfl,
            parseStringBody_quote kv.1 (58 :: (stringify kv.2 ++ 125 :: rest)),
            skipWs_cons_of_not_ws 58 _ rfl, hskipv,
            ih1 kv.2 (125 :: rest) (by omega)
              (numberStop_of_head 125 rest (by omega) (by omega) (by omega) (by omega)),
            skipWs_cons_of_not_ws 125 rest rfl]
        | cons kv2 kvs3 =>
          have hlen2 : (stringifyFields (kv :: kv2 :: kvs3)).length
              = (quoteStr kv.1).length + 1 + (stringify kv.2).length + 1
                + (stringifyFields (kv2 :: kvs3)).length := by
            show (quoteStr kv.1 ++ 58 :: stringify kv.2 ++ 44 :: stringifyFields (kv2 :: kvs3)).length = _
            simp
            omega
          have hform : stringifyFields (kv :: kv2 :: kvs3) ++ 125 :: rest
              = 34 :: ((kv.1.map escapeUnit).flatten
                ++ 34 :: (58 :: (stringify kv.2 ++ (44 :: (stringifyFields (kv2 :: kvs3) ++ 125 :: rest))))) := by
            show (quoteStr kv.1 ++ 58 :: stringify kv.2 ++ 44 :: stringifyFields (kv2 :: kvs3)) ++ 125 :: rest = _
            simp [quoteStr]
          have hskipv : skipWs (stringify kv.2 ++ (44 :: (stringifyFields (kv2 :: kvs3) ++ 125 :: rest)))
              = stringify kv.2 ++ (44 :: (stringifyFields (kv2 :: kvs3) ++ 125 :: rest)) := by
            rw [hut, List.cons_append, skipWs_cons_of_not_ws u _ huws]
          rw [parseFields.eq_def, hform]
          simp [skipWs_cons_of_not_ws 34 _ rfl,
            parseStringBody_quote kv.1
              (58 :: (stringify kv.2 ++ (44 :: (stringifyFields (kv2 :: kvs3) ++ 125 :: rest)))),
            skipWs_cons_of_not_ws 58 _ rfl, hskipv,
            ih1 kv.2 (44 :: (stringifyFields (kv2 :: kvs3) ++ 125 :: rest)) (by omega)
              (numberStop_of_head 44 _ (by omega) (by omega) (by omega) (by omega)),
            skipWs_cons_of_not_ws 44 _ rfl,
            ih3 (kv2 :: kvs3) rest (by simp) (by omega)]

/-- `JSON.parse` inverts `JSON.stringify` on the model. -/
theorem parseJson_stringify : ∀ (x : Json), parseJson (stringify x) = some x := by
  intro x
  obtain ⟨u, t, hut, huws, -, -, -⟩ := stringify_head x
  have hskip : skipWs (stringify x) = stringify x := by
    rw [hut]
    exact skipWs_cons_of_not_ws u t huws
  have h := (parse_stringify_aux ((stringify x).length + 1)).1 x [] (by omega) rfl
  rw [List.append_nil] at h
  unfold parseJson
  rw [hskip, h]
  simp [skipWs]

/-- `btoaChunks` is the 6-bit value encoding followed by padding. -/
theorem btoaChunks_eq :
    ∀ (s : List Nat),
      btoaChunks s = (encValues s).map b64CharOf ++ List.replicate (padCount s) 61 := by
  intro s
  induction s using btoaChunks.induct with
  | case1 => rfl
  | case2 a => rfl
  | case3 a b => rfl
  | case4 a b c rest ih =>
    have hpad : padCount (a :: b :: c :: rest) = padCount rest := by
      simp only [padCount, List.length_cons]
      omega
    simp only [btoaChunks, encValues, List.map_cons, hpad, ih, List.cons_append]

/-- All 6-bit values of the encoding of a byte list are below 64. -/
theorem encValues_lt :
    ∀ (s : List Nat), (∀ u ∈ s, u < 256) → ∀ v ∈ encValues s, v < 64 := by
  intro s
  induction s using encValues.induct with
  | case1 => intro _ v hv; simp [encValues] at hv
  | case2 a =>
    intro h v hv
    have ha := h a (by simp)
    simp [encValues] at hv
    rcases hv with hv | hv <;> omega
  | case3 a b =>
    intro h v hv
    have ha := h a (by simp)
    have hb := h b (by simp)
    simp [encValues] at hv
    rcases hv with hv | hv | hv <;> omega
  | case4 a b c rest ih =>
    intro h v hv
    have ha := h a (by simp)
    have hb := h b (by simp)
    have hc := h c (by simp)
    simp only [encValues, List.mem_cons] at hv
    rcases hv with hv | hv | hv | hv | hv
    · omega
    · omega
    · omega
    · omega
    · exact ih (fun u hu => h u (by simp [hu])) v hv

/-- The base64 alphabet decodes its own characters. -/
theorem b64ValOf_b64CharOf :
    ∀ (n : Nat), n < 64 → b64ValOf (b64CharOf n) = some n := by
  intro n h
  interval_cases n <;> rfl

/-- Alphabet characters are never `=`, `-`, `_` or whitespace. -/
theorem b64CharOf_props :
    ∀ (n : Nat), b64CharOf n ≠ 61 ∧ b64CharOf n ≠ 45 ∧ b64CharOf n ≠ 95 ∧
      isB64Ws (b64CharOf n) = false := by
  intro n
  unfold b64CharOf
  split_ifs <;> refine ⟨by omega, by omega, by omega, by simp [isB64Ws] <;> omega⟩

/-- Every unit of a base64 encoding is `=` or an alphabet character. -/
theorem btoaChunks_mem :
    ∀ (s : List Nat) (u : Nat), u ∈ btoaChunks s → u = 61 ∨ ∃ n, u = b64CharOf n := by
  intro s
  induction s using btoaChunks.induct with
  | case1 => intro u hu; simp [btoaChunks] at hu
  | case2 a =>
    intro u hu
    simp [btoaChunks] at hu
    rcases hu with hu | hu | hu
    · exact Or.inr ⟨_, hu⟩
    · exact Or.inr ⟨_, hu⟩
    · exact Or.inl hu
  | case3 a b =>
    intro u hu
    simp [btoaChunks] at hu
    rcases hu with hu | hu | hu | hu
    · exact Or.inr ⟨_, hu⟩
    · exact Or.inr ⟨_, hu⟩
    · exact Or.inr ⟨_, hu⟩
    · exact Or.inl hu
  | case4 a b c rest ih =>
    intro u hu
    simp only [btoaChunks, List.mem_cons] at hu
    rcases hu with hu | hu | hu | hu | hu
    · exact Or.inr ⟨_, hu⟩
    · exact Or.inr ⟨_, hu⟩
    · exact Or.inr ⟨_, hu⟩
    · exact Or.inr ⟨_, hu⟩
    · exact ih u hu

/-- A base64 encoding contains no ASCII whitespace. -/
theorem btoaChunks_filter :
    ∀ (s : List Nat), (btoaChunks s).filter (fun u => !isB64Ws u) = btoaChunks s := by
  intro s
  rw [List.filter_eq_self]
  intro u hu
  rcases btoaChunks_mem s u hu with h | ⟨n, hn⟩
  · subst h; rfl
  · subst hn
    simp [(b64CharOf_props n).2.2.2]

/-- A base64 encoding has length a multiple of four. -/
theorem btoaChunks_len_mod : ∀ (s : List Nat), (btoaChunks s).length % 4 = 0 := by
  intro s
  induction s using btoaChunks.induct with
  | case1 => rfl
  | case2 a => simp [btoaChunks]
  | case3 a b => simp [btoaChunks]
  | case4 a b c rest ih =>
    simp only [btoaChunks, List.length_cons]
    omega

/-- The unpadded encoding never has length 1 mod 4. -/
theorem encValues_len_mod : ∀ (s : List Nat), (encValues s).length % 4 ≠ 1 := by
  intro s
  induction s using encValues.induct with
  | case1 => simp [encValues]
  | case2 a => simp [encValues]
  | case3 a b => simp [encValues]
  | case4 a b c rest ih =>
    simp only [encValues, List.length_cons]
    omega

/-- Re-padding the unpadded encoding restores exactly the padding that
`btoa` would append. -/
theorem encValues_pad_eq :
    ∀ (s : List Nat), (4 - (encValues s).length % 4) % 4 = padCount s := by
  intro s
  induction s using encValues.induct with
  | case1 => rfl
  | case2 a => rfl
  | case3 a b => rfl
  | case4 a b c rest ih =>
    simp only [encValues, List.length_cons, padCount] at ih ⊢
    omega

/-- The encoding of a nonempty byte list is nonempty. -/
theorem encValues_ne_nil : ∀ (s : List Nat), s ≠ [] → encValues s ≠ [] := by
  intro s hs
  rcases s with _ | ⟨a, _ | ⟨b, _ | ⟨c, r⟩⟩⟩
  · exact absurd rfl hs
  · simp [encValues]
  · simp [encValues]
  · simp [encValues]

/-- Unfolding of `stripPadding` when the reverse starts with two `=`. -/
theorem stripPadding_rev_two :
    ∀ (s t : List Nat), s.reverse = 61 :: 61 :: t → stripPadding s = t.reverse := by
  intro s t hrev
  unfold stripPadding
  rw [hrev]
  simp

/-- Unfolding of `stripPadding` when the reverse starts with one `=`
followed by a non-`=`. -/
theorem stripPadding_rev_one :
    ∀ (s : List Nat) (m : Nat) (t : List Nat), s.reverse = 61 :: m :: t → m ≠ 61 →
      stripPadding s = (m :: t).reverse := by
  intro s m t hrev hm
  unfold stripPadding
  rw [hrev]
  simp [hm]

/-- Unfolding of `stripPadding` when the reverse does not start with `=`. -/
theorem stripPadding_rev_none :
    ∀ (s : List Nat) (a : Nat) (t : List Nat), s.reverse = a :: t → a ≠ 61 →
      stripPadding s = s := by
  intro s a t hrev ha
  unfold stripPadding
  rw [hrev]
  cases t with
  | nil => simp [ha]
  | cons b t2 => simp [ha]

/-- Stripping padding from a base64 encoding leaves the mapped 6-bit
values. -/
theorem stripPadding_btoaChunks :
    ∀ (s : List Nat), stripPadding (btoaChunks s) = (encValues s).map b64CharOf := by
  intro s
  rw [btoaChunks_eq]
  have hmem : ∀ u ∈ (encValues s).map b64CharOf, u ≠ 61 := by
    intro u hu
    obtain ⟨n, -, hn⟩ := List.mem_map.mp hu
    rw [← hn]
    exact (b64CharOf_props n).1
  have hpc : padCount s = 0 ∨ padCount s = 1 ∨ padCount s = 2 := by
    simp only [padCount]
    omega
  rcases hpc with hpc | hpc | hpc
  · rw [hpc]
    simp only [List.replicate, List.append_nil]
    rcases hrev : ((encValues s).map b64CharOf).reverse with _ | ⟨a, tl⟩
    · have hnil : (encValues s).map b64CharOf = [] := by simpa using hrev
      rw [hnil]
      rfl
    · have ha : a ≠ 61 := by
        apply hmem
        rw [← List.mem_reverse, hrev]
        simp
      exact stripPadding_rev_none _ a tl hrev ha
  · rw [hpc]
    have hne : encValues s ≠ [] := by
      apply encValues_ne_nil
      intro hnil
      rw [hnil] at hpc
      simp [padCount] at hpc
    rcases hrev : ((encValues s).map b64CharOf).reverse with _ | ⟨m, tl⟩
    · exfalso
      have hnil : (encValues s).map b64CharOf = [] := by simpa using hrev
      exact hne (by simpa using hnil)
    · have hm : m ≠ 61 := by
        apply hmem
        rw [← List.mem_reverse, hrev]
        simp
      have hscrut : ((encValues s).map b64CharOf ++ List.replicate 1 61).reverse
          = 61 :: m :: tl := by
        rw [List.reverse_append, hrev]
        rfl
      rw [stripPadding_rev_one _ m tl hscrut hm]
      rw [← hrev, List.reverse_reverse]
  · rw [hpc]
    have hscrut : ((encValues s).map b64CharOf ++ List.replicate 2 61).reverse
        = 61 :: 61 :: ((encValues s).map b64CharOf).reverse := by
      rw [List.reverse_append]
      rfl
    rw [stripPadding_rev_two _ _ hscrut, List.reverse_reverse]

/-- Mapping the alphabet over 6-bit values decodes back to the values. -/
theorem mapB64Vals_map :
    ∀ (vs : List Nat), (∀ v ∈ vs, v < 64) → mapB64Vals (vs.map b64CharOf) = some vs := by
  intro vs
  induction vs with
  | nil => intro _; rfl
  | cons v vs' ih =>
    intro h
    have hv := h v (by simp)
    simp only [List.map_cons, mapB64Vals, b64ValOf_b64CharOf v hv,
      ih (fun u hu => h u (by simp [hu]))]
    rfl

/-- Reassembling the 6-bit values of a byte list restores the bytes. -/
theorem decodeB64Groups_encValues :
    ∀ (s : List Nat), (∀ u ∈ s, u < 256) → decodeB64Groups (encValues s) = some s := by
  intro s
  induction s using encValues.induct with
  | case1 => intro _; rfl
  | case2 a =>
    intro h
    have ha := h a (by simp)
    show some [a / 4 * 4 + a % 4 * 16 / 16] = some [a]
    simp only [Option.some.injEq, List.cons.injEq, and_true]
    omega
  | case3 a b =>
    intro h
    have ha := h a (by simp)
    have hb := h b (by simp)
    show some [a / 4 * 4 + (a % 4 * 16 + b / 16) / 16,
      (a % 4 * 16 + b / 16) % 16 * 16 + b % 16 * 4 / 4] = some [a, b]
    simp only [Option.some.injEq, List.cons.injEq, and_true]
    omega
  | case4 a b c rest ih =>
    intro h
    have ha := h a (by simp)
    have hb := h b (by simp)
    have hc := h c (by simp)
    have hrest := ih (fun u hu => h u (by simp [hu]))
    show (decodeB64Groups (encValues rest)).map
        (fun bs => (a / 4 * 4 + (a % 4 * 16 + b / 16) / 16)
          :: ((a % 4 * 16 + b / 16) % 16 * 16 + (b % 16 * 4 + c / 64) / 4)
          :: ((b % 16 * 4 + c / 64) % 4 * 64 + c % 64) :: bs)
      = some (a :: b :: c :: rest)
    rw [hrest]
    simp only [Option.map_some', Option.some.injEq, List.cons.injEq, and_true]
    omega

/-- Forgiving-base64 decoding inverts `btoa` on its image. -/
theorem atob_btoaChunks :
    ∀ (s : List Nat), (∀ u ∈ s, u < 256) → atob (btoaChunks s) = some s := by
  intro s h
  unfold atob
  rw [btoaChunks_filter, if_pos (btoaChunks_len_mod s), stripPadding_btoaChunks]
  rw [if_neg (by
    rw [List.length_map]
    exact encValues_len_mod s)]
  rw [mapB64Vals_map (encValues s) (encValues_lt s h)]
  exact decodeB64Groups_encValues s h

/-- The URL-unsafe restore map is the identity on strings without `-`
or `_`. -/
theorem urlUnsafeRestore_id :
    ∀ (e : List Nat), (∀ u ∈ e, u ≠ 45 ∧ u ≠ 95) → urlUnsafeRestore e = e := by
  intro e h
  unfold urlUnsafeRestore
  rw [List.map_congr_left (fun u hu => ?_), List.map_id]
  obtain ⟨h45, h95⟩ := h u hu
  simp [h45, h95]

/-- The restore map undoes the URL-safe substitution on strings without
`-` or `_`. -/
theorem urlUnsafeRestore_subst :
    ∀ (e : List Nat), (∀ u ∈ e, u ≠ 45 ∧ u ≠ 95) →
      urlUnsafeRestore (urlUnsafeSubst e) = e := by
  intro e h
  unfold urlUnsafeRestore urlUnsafeSubst
  rw [List.map_map]
  rw [List.map_congr_left (fun u hu => ?_), List.map_id]
  obtain ⟨h45, h95⟩ := h u hu
  by_cases h43 : u = 43
  · simp [h43]
  · by_cases h47 : u = 47
    · simp [h47]
    · simp [h43, h47, h45, h95]

/-- Every unit of a base64 encoding avoids `-` and `_`. -/
theorem btoaChunks_no_url_chars :
    ∀ (s : List Nat), ∀ u ∈ btoaChunks s, u ≠ 45 ∧ u ≠ 95 := by
  intro s u hu
  rcases btoaChunks_mem s u hu with h | ⟨n, hn⟩
  · subst h
    exact ⟨by omega, by omega⟩
  · subst hn
    exact ⟨(b64CharOf_props n).2.1, (b64CharOf_props n).2.2.1⟩

/-- `decodeSdp` inverts `btoa` composed with serialization, both on the
padded encoding itself and on its unpadded URL-safe variant. -/
theorem decodeSdp_of_encoded :
    ∀ (bytes : List Nat), (∀ u ∈ bytes, u < 256) →
      decodeSdp (btoaChunks bytes) = parseJson bytes ∧
      decodeSdp (urlUnsafeSubst (stripPadding (btoaChunks bytes))) = parseJson bytes := by
  intro bytes h
  constructor
  · have hpad : padTo4 (urlUnsafeRestore (btoaChunks bytes)) = btoaChunks bytes := by
      rw [urlUnsafeRestore_id _ (btoaChunks_no_url_chars bytes)]
      unfold padTo4
      rw [btoaChunks_len_mod bytes]
      simp
    unfold decodeSdp decodeSdpE
    rw [hpad, atob_btoaChunks bytes h]
    cases hpj : parseJson bytes <;> simp [hpj]
  · have hmapmem : ∀ u ∈ (encValues bytes).map b64CharOf, u ≠ 45 ∧ u ≠ 95 := by
      intro u hu
      obtain ⟨n, -, hn⟩ := List.mem_map.mp hu
      rw [← hn]
      exact ⟨(b64CharOf_props n).2.1, (b64CharOf_props n).2.2.1⟩
    have hrest : urlUnsafeRestore (urlUnsafeSubst (stripPadding (btoaChunks bytes)))
        = (encValues bytes).map b64CharOf := by
      rw [stripPadding_btoaChunks]
      exact urlUnsafeRestore_subst _ hmapmem
    have hpad : padTo4 ((encValues bytes).map b64CharOf) = btoaChunks bytes := by
      unfold padTo4
      rw [List.length_map, encValues_pad_eq, ← btoaChunks_eq]
    unfold decodeSdp decodeSdpE
    rw [hrest, hpad, atob_btoaChunks bytes h]
    cases hpj : parseJson bytes <;> simp [hpj]

/-- C1 counterexample: for the JSON-serializable value `"€"` (a string
whose single code unit 0x20AC lies outside Latin-1), `encodeSdp` throws
inside `btoa` and no encoded string is produced at all, so the
round-trip `decodeSdp (encodeSdp x) = x` fails at this input. -/
theorem encodeSdp_roundtrip_fails_beyond_latin1 :
    ¬ ∃ e, encodeSdpE (Json.str [8364]) = .ok e ∧ decodeSdp e = some (Json.str [8364]) := by
  rintro ⟨e, he, -⟩
  rw [show encodeSdpE (Json.str [8364]) = Except.error () from rfl] at he
  cases he

/-- C1 (amended to values whose JSON serialization stays in Latin-1,
which is exactly when `btoa` does not throw): encoding succeeds and
decoding the encoding returns the original value, both for the encoded
string itself and after substituting the two URL-unsafe characters and
stripping the padding. -/
theorem decodeSdp_encodeSdp_roundtrip :
    ∀ (x : Json), (stringify x).all (fun u => u < 256) = true →
      ∃ e, encodeSdpE x = .ok e ∧ decodeSdp e = some x ∧
        decodeSdp (urlUnsafeSubst (stripPadding e)) = some x := by
  intro x hall
  have hmem : ∀ u ∈ stringify x, u < 256 := by
    intro u hu
    have := List.all_eq_true.mp hall u hu
    simpa using this
  have henc : encodeSdpE x = .ok (btoaChunks (stringify x)) := by
    unfold encodeSdpE btoa
    rw [if_pos hall]
  obtain ⟨h1, h2⟩ := decodeSdp_of_encoded (stringify x) hmem
  exact ⟨btoaChunks (stringify x), henc,
    by rw [h1, parseJson_stringify], by rw [h2, parseJson_stringify]⟩

/-- Witness for C1 (amended) at the concrete value `{"type":"offer"}`:
its serialization is ASCII, encoding succeeds, and both decode variants
return the value. -/
theorem decodeSdp_encodeSdp_roundtrip_witness :
    ((stringify (Json.obj [([116, 121, 112, 101], Json.str [111, 102, 102, 101, 114])])).all
      (fun u => u < 256) = true) ∧
    (∃ e, encodeSdpE (Json.obj [([116, 121, 112, 101], Json.str [111, 102, 102, 101, 114])])
        = .ok e ∧
      decodeSdp e = some (Json.obj [([116, 121, 112, 101], Json.str [111, 102, 102, 101, 114])]) ∧
      decodeSdp (urlUnsafeSubst (stripPadding e))
        = some (Json.obj [([116, 121, 112, 101], Json.str [111, 102, 102, 101, 114])])) := by
  refine ⟨rfl, ?_⟩
  exact decodeSdp_encodeSdp_roundtrip
    (Json.obj [([116, 121, 112, 101], Json.str [111, 102, 102, 101, 114])]) rfl
